import Mathlib

/-!
# Verification of the repo-map symbol tool against its specification

This file embeds the text-splice engine, the heuristic fallback matcher,
the grammar registry and the AST symbol locators of the repo-map package
(`src/tools/symbol.ts`, `src/RepoMapService.js`) as executable Lean
definitions, and proves or refutes the specification's claims about them.

Text is modelled as `List Char` (JS strings over code points); line
arrays come from `List.splitOn '\n'`, mirroring JS `split("\n")`, and are
re-joined with `List.intercalate ['\n']`, mirroring `join("\n")`.
-/

namespace RepoMap

/-- JS whitespace test (`\s` character class, restricted to the code points
that occur in source files handled here). -/
def isWs (c : Char) : Bool :=
  c = ' ' || c = '\t' || c = '\n' || c = '\r' || c = '\x0b' || c = '\x0c'

/-- JS `str.split("\n")` on a `List Char` model. -/
def splitLines (s : List Char) : List (List Char) :=
  s.splitOn '\n'

/-- JS `arr.join("\n")` on the `List Char` model. -/
def joinLines (ls : List (List Char)) : List Char :=
  List.intercalate ['\n'] ls

/-- JS `str.trim()`: strip whitespace from both ends. -/
def jsTrim (s : List Char) : List Char :=
  ((s.dropWhile isWs).reverse.dropWhile isWs).reverse

/-- JS `str.substring(0, n)` (clamping). -/
def jsSubstrTo (s : List Char) (n : Nat) : List Char := s.take n

/-- JS `str.substring(n)` (clamping). -/
def jsSubstrFrom (s : List Char) (n : Nat) : List Char := s.drop n

/-- JS `str.slice(s, e)` for `0 ≤ s ≤ e` (clamping at the length). -/
def jsSlice (s : List Char) (a b : Nat) : List Char := (s.take b).drop a

/-- A 0-based (row, column) position, as in tree-sitter `startPosition` /
`endPosition`. -/
structure Pos where
  row : Nat
  column : Nat
deriving DecidableEq, Repr

/-- The located range of a symbol: start position (inclusive) and end
position (exclusive), both 0-based, as carried by `createSymbolInfo`. -/
structure SymbolRange where
  startPos : Pos
  endPos : Pos
deriving DecidableEq, Repr

/-- Embedding of `replaceSymbol` (src/tools/symbol.ts, lines 334–358):
split the file on newlines, then either splice within the single line
`startLine`, or glue the prefix of `startLine` and the suffix of
`endLine` onto the first and last lines of `newContent` and splice the
resulting lines over the line span `[startLine, endLine]`. -/
def replaceSymbol (originalCode : List Char) (r : SymbolRange)
    (newContent : List Char) : List Char :=
  let lines := splitLines originalCode
  let startLine := r.startPos.row
  let endLine := r.endPos.row
  let startColumn := r.startPos.column
  let endColumn := r.endPos.column
  if startLine = endLine then
    let line := lines.getD startLine []
    joinLines (lines.set startLine
      (jsSubstrTo line startColumn ++ newContent ++ jsSubstrFrom line endColumn))
  else
    let firstLine := jsSubstrTo (lines.getD startLine []) startColumn
    let lastLine := jsSubstrFrom (lines.getD endLine []) endColumn
    let ncl := splitLines newContent
    let ncl := ncl.set 0 (firstLine ++ ncl.getD 0 [])
    let ncl := ncl.set (ncl.length - 1) (ncl.getD (ncl.length - 1) [] ++ lastLine)
    joinLines (lines.take startLine ++ ncl ++ lines.drop (endLine + 1))

/-- Append a suffix to the last line of a nonempty list of lines
(spec wording: "append the suffix to its last line"). -/
def appendToLast (suf : List Char) : List (List Char) → List (List Char)
  | [] => [suf]
  | [x] => [x ++ suf]
  | x :: y :: xs => x :: appendToLast suf (y :: xs)

/-- The glued replacement lines, as the specification words them: split
`newContent` into lines, prepend the prefix of the start line to its
first line and append the suffix of the end line to its last line. -/
def gluedLines (pre suf : List Char) (newContent : List Char) : List (List Char) :=
  match splitLines newContent with
  | [] => [pre ++ suf]
  | x :: xs => appendToLast suf ((pre ++ x) :: xs)

/-- The verbatim source text of a located range (what tree-sitter exposes
as `node.text` for a node spanning that range): on a single line the
slice between the columns; across lines the suffix of the start line,
the full intermediate lines, and the prefix of the end line, re-joined
with newlines. -/
def rangeText (orig : List Char) (r : SymbolRange) : List Char :=
  if r.startPos.row = r.endPos.row then
    jsSlice ((splitLines orig).getD r.startPos.row []) r.startPos.column r.endPos.column
  else
    joinLines
      (jsSubstrFrom ((splitLines orig).getD r.startPos.row []) r.startPos.column ::
        (((splitLines orig).drop (r.startPos.row + 1)).take
            (r.endPos.row - r.startPos.row - 1) ++
          [jsSubstrTo ((splitLines orig).getD r.endPos.row []) r.endPos.column]))

/-- Embedding of the fast-path byte splice (src/tools/symbol.ts, line 66):
`originalCode.slice(0, range.start) + content + originalCode.slice(range.end)`. -/
def byteSplice (code : List Char) (s e : Nat) (content : List Char) : List Char :=
  code.take s ++ content ++ code.drop e

/-! ## Blank-line normalization and deletion -/

/-- Emit a completed run of `n` newline characters: runs of three or
more collapse to exactly two. -/
def emitNLRun (n : Nat) (t : List Char) : List Char :=
  (if 3 ≤ n then ['\n', '\n'] else List.replicate n '\n') ++ t

/-- Auxiliary scan for `collapseNewlines`, carrying the length of the
pending newline run. -/
def collapseNLAux : Nat → List Char → List Char
  | n, [] => emitNLRun n []
  | n, c :: rest =>
    if c = '\n' then collapseNLAux (n + 1) rest
    else emitNLRun n (c :: collapseNLAux 0 rest)

/-- Embedding of the JS regex replacement `.replace(/\n{3,}/g, "\n\n")`:
every maximal run of three or more newline characters is replaced by
exactly two. -/
def collapseNewlines (s : List Char) : List Char := collapseNLAux 0 s

/-- Embedding of `deleteSymbol` (src/tools/symbol.ts, lines 438–462). -/
def deleteSymbol (originalCode : List Char) (r : SymbolRange) : List Char :=
  let lines := splitLines originalCode
  let startLine := r.startPos.row
  let endLine := r.endPos.row
  if r.startPos.column = 0 then
    let spliced := lines.take startLine ++ lines.drop (endLine + 1)
    let cleaned :=
      if 0 < startLine ∧ startLine < spliced.length ∧
          jsTrim (spliced.getD startLine []) = [] ∧
          jsTrim (spliced.getD (startLine - 1) []) = [] then
        spliced.take startLine ++ spliced.drop (startLine + 1)
      else spliced
    joinLines cleaned
  else
    collapseNewlines (replaceSymbol originalCode r [])

/-! ## Heuristic fallback matcher -/

/-- The keyword scanned for by the fallback regex. -/
def kwFunction : List Char := "function".toList

/-- Matches the body of the fallback pattern — `function\s+<name>\s*\(` —
against a text whose leading whitespace has already been consumed.
This is the deterministic reading of the regex, which is exact because
the name is matched literally (metacharacters escaped) and identifier
names begin with a non-whitespace character. -/
def sigMatchTail (name : List Char) (t : List Char) : Bool :=
  if kwFunction.isPrefixOf t then
    let r := t.drop kwFunction.length
    let wsLen := (r.takeWhile isWs).length
    if wsLen = 0 then false
    else
      let r2 := r.drop wsLen
      if name.isPrefixOf r2 then
        match (r2.drop name.length).dropWhile isWs with
        | '(' :: _ => true
        | _ => false
      else false
  else false

/-- Does the pattern `\s*function\s+<name>\s*\(` match at position `p`
(the part after the `(^|\n)` group)? -/
def sigMatchAt (name code : List Char) (p : Nat) : Bool :=
  sigMatchTail name ((code.drop p).dropWhile isWs)

/-- Scan for the first newline whose following position matches the
pattern, mirroring the regex engine's left-to-right search for the
`\n` alternative of `(^|\n)`. -/
def findNLMatchAux (name : List Char) : List Char → Nat → Option Nat
  | [], _ => none
  | c :: rest, i =>
    if c = '\n' && sigMatchTail name (rest.dropWhile isWs) then some (i + 1)
    else findNLMatchAux name rest (i + 1)

/-- The `start` offset computed by `pattern.exec` in
`findTopLevelFunctionRange`: the first position of a line (position 0,
or the position right after a newline) at which the pattern matches. -/
def findFnMatchStart (code name : List Char) : Option Nat :=
  if sigMatchTail name (code.dropWhile isWs) then some 0
  else findNLMatchAux name code 0

/-- JS `code.indexOf(ch, from)`: index of the first occurrence of `ch`
at or after `from`, if any. -/
def indexOfFrom (code : List Char) (c : Char) (start : Nat) : Option Nat :=
  match (code.drop start).findIdx? (· = c) with
  | some j => some (start + j)
  | none => none

/-- The manual brace-depth loop of `findTopLevelFunctionRange`:
increment on `{`, decrement on `}`, return the position one past the
brace that brings the depth back to zero. -/
def braceScanEnd : List Char → Nat → Int → Option Nat
  | [], _, _ => none
  | c :: rest, pos, depth =>
    if c = '{' then braceScanEnd rest (pos + 1) (depth + 1)
    else if c = '}' then
      if depth - 1 = 0 then some (pos + 1)
      else braceScanEnd rest (pos + 1) (depth - 1)
    else braceScanEnd rest (pos + 1) depth

/-- Embedding of `findTopLevelFunctionRange` (src/tools/symbol.ts,
lines 469–501): regex-locate the start of the declaration, then scan to
the first `(`, the first `)` after it, the first `{` after that, and
brace-count to the end of the body. -/
def findTopLevelFunctionRange (code name : List Char) : Option (Nat × Nat) :=
  match findFnMatchStart code name with
  | none => none
  | some start =>
    match indexOfFrom code '(' start with
    | none => none
    | some openParen =>
      match indexOfFrom code ')' (openParen + 1) with
      | none => none
      | some closeParen =>
        match indexOfFrom code '{' (closeParen + 1) with
        | none => none
        | some openBrace =>
          (braceScanEnd (code.drop openBrace) openBrace 0).map
            (fun e => (start, e))

/-! ## Create paths -/

/-- The create-at-top-level fallback of `execute` (src/tools/symbol.ts,
lines 68–74 and 138–144): an empty/whitespace-only file becomes the
trimmed content, otherwise the trimmed content is appended after the
trimmed existing code with a single newline in between. -/
def createTopLevel (orig content : List Char) : List Char :=
  if jsTrim orig = [] then jsTrim content
  else jsTrim orig ++ '\n' :: jsTrim content

/-- The whole JS/TS top-level-function fast path of `execute`
(src/tools/symbol.ts, lines 57–74): locate via the heuristic matcher;
on a hit either delete (byte-splice out, then collapse newline runs) or
replace by byte splice; on a miss fall back to `createTopLevel`. -/
def fastPathNewCode (orig name content : List Char) : List Char :=
  match findTopLevelFunctionRange orig name with
  | some rg =>
    if content = [] then collapseNewlines (byteSplice orig rg.1 rg.2 [])
    else byteSplice orig rg.1 rg.2 content
  | none => createTopLevel orig content

/-- Is `"\n\n\n"` an infix (a leftover run of 3+ newlines)? -/
def hasTripleNewline : List Char → Bool
  | '\n' :: '\n' :: '\n' :: _ => true
  | _ :: rest => hasTripleNewline rest
  | [] => false

/-! ## Create within class -/

/-- Embedding of `getIndentation` (src/tools/symbol.ts, lines 394–397):
the leading whitespace run captured by `/^(\s*)/`. -/
def getIndentation (line : List Char) : List Char := line.takeWhile isWs

/-- Embedding of `createSymbolInClass` (src/tools/symbol.ts,
lines 360–392). -/
def createSymbolInClass (originalCode : List Char) (classRange : SymbolRange)
    (content : List Char) : List Char :=
  let lines := splitLines originalCode
  let classEndLine := classRange.endPos.row
  let classEndColumn := classRange.endPos.column
  let lastLine := lines.getD classEndLine []
  let beforeClosingBrace := jsSubstrTo lastLine (classEndColumn - 1)
  let afterClosingBrace := jsSubstrFrom lastLine (classEndColumn - 1)
  let classIndent := getIndentation (lines.getD classRange.startPos.row [])
  let contentIndent := classIndent ++ [' ', ' ']
  let indentedContent := joinLines ((splitLines content).map
    (fun line => if jsTrim line ≠ [] then contentIndent ++ line else line))
  joinLines (lines.set classEndLine
    (beforeClosingBrace ++ '\n' ::
      (indentedContent ++ '\n' :: (classIndent ++ afterClosingBrace))))

/-! ## C6 — the heuristic fallback matcher -/

/-- Nesting-aware scan for the closing parenthesis that matches the
opening parenthesis at the scan start (the claim's reading of "its
matching closing parenthesis"). Returns the index of that parenthesis. -/
def parenScanClose : List Char → Nat → Int → Option Nat
  | [], _, _ => none
  | c :: rest, pos, depth =>
    if c = '(' then parenScanClose rest (pos + 1) (depth + 1)
    else if c = ')' then
      if depth - 1 = 0 then some pos
      else parenScanClose rest (pos + 1) (depth - 1)
    else parenScanClose rest (pos + 1) depth

/-- The fallback matcher as the claim words it: identical to
`findTopLevelFunctionRange` except that it scans from the opening
parenthesis to its *matching* closing parenthesis instead of to the
first `)` that follows. -/
def findTopLevelFunctionRangeClaim (code name : List Char) : Option (Nat × Nat) :=
  match findFnMatchStart code name with
  | none => none
  | some start =>
    match indexOfFrom code '(' start with
    | none => none
    | some openParen =>
      match parenScanClose (code.drop openParen) openParen 0 with
      | none => none
      | some closeParen =>
        match indexOfFrom code '{' (closeParen + 1) with
        | none => none
        | some openBrace =>
          (braceScanEnd (code.drop openBrace) openBrace 0).map
            (fun e => (start, e))

/-- Line-start positions of a text: position 0, and every position
immediately after a newline. -/
def lineStartPositionsAux : List Char → Nat → List Nat
  | [], _ => []
  | c :: rest, i =>
    if c = '\n' then (i + 1) :: lineStartPositionsAux rest (i + 1)
    else lineStartPositionsAux rest (i + 1)

/-- All line-start positions of a text, in increasing order. -/
def lineStartPositions (code : List Char) : List Nat :=
  0 :: lineStartPositionsAux code 0

/-- The fallback matcher as the amended claim words it: the first
line-start position (in textual order) at which the escaped-literal
pattern `function <name> (` matches (allowing leading whitespace); from
there scan to the first `(`, then to the *next* `)`, then to the next
`{`, then count brace depth to zero; the span from match start to one
past the closing brace is the result, and a text with no pattern match
(or no completed scan) yields none. -/
def findTopLevelFunctionRangeSpec (code name : List Char) : Option (Nat × Nat) :=
  match (lineStartPositions code).find? (fun p => sigMatchAt name code p) with
  | none => none
  | some start =>
    match indexOfFrom code '(' start with
    | none => none
    | some openParen =>
      match indexOfFrom code ')' (openParen + 1) with
      | none => none
      | some closeParen =>
        match indexOfFrom code '{' (closeParen + 1) with
        | none => none
        | some openBrace =>
          (braceScanEnd (code.drop openBrace) openBrace 0).map
            (fun e => (start, e))

/-! ## C7 — grammar selection -/

/-- The grammars the package can load (tree-sitter-javascript,
tree-sitter-python, tree-sitter-cpp). -/
inductive Grammar where
  | js
  | python
  | cpp
deriving DecidableEq, Repr

/-- Embedding of `loadLanguage` on the edit path (src/tools/symbol.ts,
lines 168–187), with the dynamic imports assumed to succeed. -/
def loadLanguageEdit (ext : String) : Option Grammar :=
  if ext = ".js" ∨ ext = ".jsx" ∨ ext = ".ts" ∨ ext = ".tsx" then some Grammar.js
  else if ext = ".py" then some Grammar.python
  else if ext = ".h" ∨ ext = ".c" ∨ ext = ".hxx" ∨ ext = ".cxx" ∨
      ext = ".hpp" ∨ ext = ".cpp" then some Grammar.cpp
  else none

/-- Embedding of `loadLanguage` on the map path (src/RepoMapService.js,
lines 72–88): note that only `.js` — not `.jsx`, `.ts` or `.tsx` — maps
to the JS grammar there. -/
def loadLanguageMap (ext : String) : Option Grammar :=
  if ext = ".js" then some Grammar.js
  else if ext = ".py" then some Grammar.python
  else if ext = ".h" ∨ ext = ".c" ∨ ext = ".hxx" ∨ ext = ".cxx" ∨
      ext = ".hpp" ∨ ext = ".cpp" then some Grammar.cpp
  else none

/-! ## The syntax-tree model

Tree-sitter nodes carry a type name, start/end positions, the verbatim
text of their span, a "named node" flag, and ordered children, each
optionally tagged with a grammar field name. The cursor walks of the
source (`tree.walk()` with `gotoFirstChild` / `gotoNextSibling` /
`gotoParent`) are plain depth-first left-to-right traversals, embedded
below as structural recursion. -/

mutual
inductive TSNode : Type where
  | mk (ty : String) (sp ep : Pos) (text : List Char) (named : Bool)
      (children : TSChildren)
inductive TSChildren : Type where
  | nil
  | cons (field : Option String) (child : TSNode) (rest : TSChildren)
end

def TSNode.ty : TSNode → String
  | .mk t _ _ _ _ _ => t

def TSNode.sp : TSNode → Pos
  | .mk _ s _ _ _ _ => s

def TSNode.ep : TSNode → Pos
  | .mk _ _ e _ _ _ => e

def TSNode.text : TSNode → List Char
  | .mk _ _ _ tx _ _ => tx

def TSNode.isNamed : TSNode → Bool
  | .mk _ _ _ _ nm _ => nm

def TSNode.children : TSNode → TSChildren
  | .mk _ _ _ _ _ ch => ch

/-- `node.childForFieldName(f)`: the first child tagged with field `f`. -/
def TSChildren.fieldLookup (f : String) : TSChildren → Option TSNode
  | .nil => none
  | .cons fl c rest => if fl = some f then some c else fieldLookup f rest

def TSNode.childForFieldName (n : TSNode) (f : String) : Option TSNode :=
  n.children.fieldLookup f

/-- `node.namedChild(0)`: the first named child. -/
def TSChildren.firstNamed : TSChildren → Option TSNode
  | .nil => none
  | .cons _ c rest => if c.isNamed then some c else firstNamed rest

def TSNode.namedChildZero (n : TSNode) : Option TSNode :=
  n.children.firstNamed

mutual
/-- `node.descendantsOfType(t)[0]`: the first node of type `t` in
document (depth-first preorder) order, the node itself included. -/
def TSNode.firstDescendantOfType (t : String) : TSNode → Option TSNode
  | .mk ty sp ep tx nm ch =>
    if ty = t then some (.mk ty sp ep tx nm ch)
    else TSChildren.firstDescendantOfType t ch
def TSChildren.firstDescendantOfType (t : String) : TSChildren → Option TSNode
  | .nil => none
  | .cons _ c rest =>
    match TSNode.firstDescendantOfType t c with
    | some r => some r
    | none => TSChildren.firstDescendantOfType t rest
end

/-- A symbol entry produced by `extractSymbols` (RepoMapService.js):
name, kind, first signature line (truncated to 120 characters), 1-based
declaration line, optional parent class. -/
structure SymbolEntry where
  name : List Char
  kind : String
  signature : List Char
  line : Nat
  parentClass : Option (List Char) := none
deriving DecidableEq, Repr

/-- The result record built by `createSymbolInfo` (src/tools/symbol.ts,
lines 325–332). -/
structure SymbolInfo where
  node : TSNode
  startPosition : Pos
  endPosition : Pos
  text : List Char

def createSymbolInfo (n : TSNode) : SymbolInfo :=
  ⟨n, n.sp, n.ep, n.text⟩

/-- The `symbolTypes` table of `findSymbol` (src/tools/symbol.ts,
lines 190–204), with the `|| [symbolType]` fallback. -/
def targetTypes (symbolType : String) : List String :=
  if symbolType = "function" then ["function_declaration", "function_definition"]
  else if symbolType = "class" then ["class_declaration", "class_definition"]
  else if symbolType = "variable" then
    ["variable_declarator", "lexical_declaration", "variable_declaration"]
  else if symbolType = "method" then ["method_definition"]
  else if symbolType = "export" then ["export_statement"]
  else if symbolType = "constructor" then ["method_definition"]
  else if symbolType = "property" then ["property_definition", "field_definition"]
  else [symbolType]

/-- Name resolution shared by the locators: the `name` field child, or
else the first named child. -/
def nodeIdNode (n : TSNode) : Option TSNode :=
  match n.childForFieldName "name" with
  | some x => some x
  | none => n.namedChildZero

/-- Does a single node match in `findSymbol`'s traversal
(src/tools/symbol.ts, lines 207–245)? Reproduces the control flow: the
node's type must be among the target types; the name node comes from the
`name` field, overridden for `export_statement` (the declaration's name
field), for `lexical_declaration`/`variable_declaration` (the first
`variable_declarator` descendant's name field), falling back to the
first named child when unresolved; a `method_definition` whose name
field reads `constructor` matches a `constructor` lookup immediately. -/
def fsMatchNode (symbolName : List Char) (symbolType : String) (n : TSNode) : Bool :=
  if (targetTypes symbolType).contains n.ty then
    let ctorHit :=
      symbolType = "constructor" && n.ty = "method_definition" &&
        (match n.childForFieldName "name" with
          | some x => x.text = "constructor".toList
          | none => false)
    let nameNode :=
      if n.ty = "export_statement" then
        match n.childForFieldName "declaration" with
        | some decl => decl.childForFieldName "name"
        | none => n.childForFieldName "name"
      else if n.ty = "lexical_declaration" ∨ n.ty = "variable_declaration" then
        match TSNode.firstDescendantOfType "variable_declarator" n with
        | some d => d.childForFieldName "name"
        | none => n.childForFieldName "name"
      else n.childForFieldName "name"
    let nameNode :=
      match nameNode with
      | none => n.namedChildZero
      | some x => some x
    ctorHit ||
      (match nameNode with
        | some x => x.text = symbolName
        | none => false)
  else false

mutual
/-- The depth-first short-circuiting walk of `findSymbol`. -/
def findSymbolNode (symbolName : List Char) (symbolType : String) :
    TSNode → Option TSNode
  | .mk ty sp ep tx nm ch =>
    if fsMatchNode symbolName symbolType (.mk ty sp ep tx nm ch) then
      some (.mk ty sp ep tx nm ch)
    else findSymbolChildren symbolName symbolType ch
def findSymbolChildren (symbolName : List Char) (symbolType : String) :
    TSChildren → Option TSNode
  | .nil => none
  | .cons _ c rest =>
    match findSymbolNode symbolName symbolType c with
    | some r => some r
    | none => findSymbolChildren symbolName symbolType rest
end

/-- Embedding of `findSymbol` (src/tools/symbol.ts, lines 189–259). -/
def findSymbol (tree : TSNode) (symbolName : List Char) (symbolType : String) :
    Option SymbolInfo :=
  (findSymbolNode symbolName symbolType tree).map createSymbolInfo

/-- The `symbolTypes` table of `findSymbolInClass` (src/tools/symbol.ts,
lines 266–272). -/
def targetTypesInClass (symbolType : String) : List String :=
  if symbolType = "method" then ["method_definition"]
  else if symbolType = "constructor" then ["method_definition"]
  else if symbolType = "property" then
    ["property_definition", "field_definition", "method_definition"]
  else [symbolType]

/-- Does a single node match in `findSymbolInClass`'s traversal
(src/tools/symbol.ts, lines 275–304)? -/
def fscMatchNode (symbolName : List Char) (symbolType : String) (n : TSNode) : Bool :=
  if (targetTypesInClass symbolType).contains n.ty then
    let methodHit :=
      n.ty = "method_definition" &&
        (match n.childForFieldName "name" with
          | some x =>
            (symbolType = "constructor" && x.text = "constructor".toList) ||
              (symbolType = "property" && x.text = symbolName)
          | none => false)
    let nameNode :=
      match n.childForFieldName "name" with
      | none => n.namedChildZero
      | some x => some x
    methodHit ||
      (match nameNode with
        | some x => x.text = symbolName
        | none => false)
  else false

mutual
/-- The class-scoped walk of `findSymbolInClass`: the root is tested,
children whose type is a class declaration are neither tested nor
descended into. -/
def findInClassNode (symbolName : List Char) (symbolType : String) :
    TSNode → Option TSNode
  | .mk ty sp ep tx nm ch =>
    if fscMatchNode symbolName symbolType (.mk ty sp ep tx nm ch) then
      some (.mk ty sp ep tx nm ch)
    else findInClassChildren symbolName symbolType ch
def findInClassChildren (symbolName : List Char) (symbolType : String) :
    TSChildren → Option TSNode
  | .nil => none
  | .cons _ c rest =>
    if c.ty = "class_declaration" ∨ c.ty = "class_definition" then
      findInClassChildren symbolName symbolType rest
    else
      match findInClassNode symbolName symbolType c with
      | some r => some r
      | none => findInClassChildren symbolName symbolType rest
end

/-- Embedding of `findSymbolInClass` (src/tools/symbol.ts,
lines 261–323). -/
def findSymbolInClass (classNode : TSNode) (symbolName : List Char)
    (symbolType : String) : Option SymbolInfo :=
  (findInClassNode symbolName symbolType classNode).map createSymbolInfo

/-! ## Enumerate (extractSymbols, RepoMapService.js lines 90–252) -/

/-- The `kinds` node-type table of `extractSymbols`. -/
def extractKind (ty : String) : Option String :=
  if ty = "program" then some "program"
  else if ty = "function_declaration" then some "function"
  else if ty = "method_definition" then some "method"
  else if ty = "function_definition" then some "function"
  else if ty = "class_declaration" then some "class"
  else if ty = "class_definition" then some "class"
  else if ty = "struct_specifier" then some "struct"
  else if ty = "variable_declarator" then some "variable"
  else if ty = "lexical_declaration" then some "variable"
  else if ty = "export_statement" then some "export"
  else none

/-- `text.split("\n")[0].slice(0, 120)`: the signature line. -/
def sigOf (t : List Char) : List Char := ((splitLines t).getD 0 []).take 120

/-- Is the enclosing parent symbol a class? -/
def isClassParent : Option SymbolEntry → Bool
  | some p => p.kind = "class"
  | none => false

/-- Record the export statement's symbol, given the resolved name node
and kind: pushed only when the name node exists, with signature and
line taken from the export node itself. -/
def exportEmit (n : TSNode) (idNode : Option TSNode) (kind : String) :
    List SymbolEntry :=
  match idNode with
  | some idn => [⟨idn.text, kind, sigOf n.text, n.sp.row + 1, none⟩]
  | none => []

/-- The export-statement branch of `extractSymbols` at depth 1: unwrap
the declaration; function/class/variable declarations yield a symbol of
the inner kind named by the inner identifier, signature and line taken
from the export node; other declarations leave the name node as the
export node's own `name` field and the kind as `export`. -/
def exportBranch (n : TSNode) : List SymbolEntry :=
  match n.childForFieldName "declaration" with
  | none => []
  | some decl =>
    if decl.ty = "function_declaration" then
      exportEmit n (decl.childForFieldName "name") "function"
    else if decl.ty = "class_declaration" then
      exportEmit n (decl.childForFieldName "name") "class"
    else if decl.ty = "lexical_declaration" ∨ decl.ty = "variable_declaration" then
      match TSNode.firstDescendantOfType "variable_declarator" decl with
      | some d => exportEmit n (d.childForFieldName "name") "variable"
      | none => exportEmit n (n.childForFieldName "name") "export"
    else exportEmit n (n.childForFieldName "name") "export"

/-- The variable-declaration branch of `extractSymbols` at depth 1: the
first `variable_declarator` descendant supplies the identifier, the
signature and the declaration line. -/
def lexicalBranch (n : TSNode) (kind : String) : List SymbolEntry :=
  match TSNode.firstDescendantOfType "variable_declarator" n with
  | none => []
  | some d =>
    match d.childForFieldName "name" with
    | some idn => [⟨idn.text, kind, sigOf d.text, d.sp.row + 1, none⟩]
    | none => []

/-- The method-in-class branch of `extractSymbols`: name from the name
field, `parentClass` from the enclosing class symbol. -/
def methodBranch (n : TSNode) (parent : Option SymbolEntry) : List SymbolEntry :=
  match n.childForFieldName "name" with
  | some idn =>
    [⟨idn.text, "method", sigOf n.text, n.sp.row + 1, parent.map (·.name)⟩]
  | none => []

mutual
/-- The `traverse` recursion of `extractSymbols`: export, variable and
method-in-class branches record and stop; other table kinds record at
depth 1 and recurse into a recorded class with the class as parent;
everything else just traverses its children at `depth + 1`. -/
def exNode : TSNode → Nat → Option SymbolEntry → List SymbolEntry
  | .mk ty sp ep tx nm ch, depth, parent =>
    match extractKind ty with
    | some kind =>
      if kind = "program" then exChildren ch (depth + 1) parent
      else if ty = "export_statement" then
        if depth = 1 then exportBranch (.mk ty sp ep tx nm ch) else []
      else if ty = "lexical_declaration" ∨ ty = "variable_declaration" then
        if depth = 1 then lexicalBranch (.mk ty sp ep tx nm ch) kind else []
      else if ty = "method_definition" ∧ isClassParent parent then
        methodBranch (.mk ty sp ep tx nm ch) parent
      else if depth = 1 then
        match nodeIdNode (.mk ty sp ep tx nm ch) with
        | some idn =>
          let symbol : SymbolEntry := ⟨idn.text, kind, sigOf tx, sp.row + 1, none⟩
          symbol ::
            (if kind = "class" then exChildren ch (depth + 1) (some symbol)
             else exChildren ch (depth + 1) parent)
        | none => exChildren ch (depth + 1) parent
      else exChildren ch (depth + 1) parent
    | none => exChildren ch (depth + 1) parent
def exChildren : TSChildren → Nat → Option SymbolEntry → List SymbolEntry
  | .nil, _, _ => []
  | .cons _ c rest, depth, parent =>
    exNode c depth parent ++ exChildren rest depth parent
end

/-- Embedding of `extractSymbols`: the traversal starts at the tree root
with depth 0 and no parent symbol. -/
def extractSymbols (tree : TSNode) : List SymbolEntry :=
  exNode tree 0 none

/-! ## Preorder characterizations of the locators -/

mutual
/-- Depth-first preorder listing of a node and all its descendants. -/
def preorderNode : TSNode → List TSNode
  | .mk ty sp ep tx nm ch => .mk ty sp ep tx nm ch :: preorderChildren ch
def preorderChildren : TSChildren → List TSNode
  | .nil => []
  | .cons _ c rest => preorderNode c ++ preorderChildren rest
end

mutual
/-- Depth-first preorder listing that refuses to enter (or list) child
nodes that are class declarations — the visiting order of
`findSymbolInClass`. -/
def preorderPrunedNode : TSNode → List TSNode
  | .mk ty sp ep tx nm ch => .mk ty sp ep tx nm ch :: preorderPrunedChildren ch
def preorderPrunedChildren : TSChildren → List TSNode
  | .nil => []
  | .cons _ c rest =>
    (if c.ty = "class_declaration" ∨ c.ty = "class_definition" then []
     else preorderPrunedNode c) ++ preorderPrunedChildren rest
end

/-! ## C10 — constructor lookups -/

/-- What a constructor lookup actually matches: a `method_definition`
whose `name` field reads `constructor`, **or** whose resolved name
equals the supplied `symbolName`. -/
def constructorMatch (symbolName : List Char) (n : TSNode) : Bool :=
  n.ty = "method_definition" &&
    ((match n.childForFieldName "name" with
      | some x => x.text = "constructor".toList
      | none => false) ||
     (match nodeIdNode n with
      | some x => x.text = symbolName
      | none => false))

/-- A concrete class: `class A` containing method `foo` (row 1) and then
a constructor (row 2). -/
def methodNodeC10 (name : String) (row : Nat) : TSNode :=
  .mk "method_definition" ⟨row, 2⟩ ⟨row, 12⟩ (name ++ "() \x7b\x7d").toList true
    (.cons (some "name")
      (.mk "property_identifier" ⟨row, 2⟩ ⟨row, 2 + name.length⟩ name.toList true .nil)
      .nil)

def classNodeC10 : TSNode :=
  .mk "class_declaration" ⟨0, 0⟩ ⟨3, 1⟩
    ("class A \x7b\n  foo() \x7b\x7d\n  constructor() \x7b\x7d\n\x7d".toList) true
    (.cons (some "name") (.mk "identifier" ⟨0, 6⟩ ⟨0, 7⟩ ("A".toList) true .nil)
      (.cons (some "body")
        (.mk "class_body" ⟨0, 8⟩ ⟨3, 1⟩ ("\x7b\x7d".toList) true
          (.cons none (methodNodeC10 "foo" 1)
            (.cons none (methodNodeC10 "constructor" 2) .nil)))
        .nil))

def treeC10 : TSNode :=
  .mk "program" ⟨0, 0⟩ ⟨3, 1⟩ ("class A ...".toList) true
    (.cons none classNodeC10 .nil)

/-! ## C8 — enumerate-then-locate -/

/-- The symbol kinds for which the enumerate/locate correspondence
holds (`struct` and `export` kinds are excluded; see the C8
counterexample discussion). -/
def allowedKinds : List String := ["function", "class", "variable", "method"]

/-- Two top-level functions named `foo`, on rows 0 and 2. -/
def fnNodeC8 (row : Nat) : TSNode :=
  .mk "function_declaration" ⟨row, 0⟩ ⟨row, 17⟩ ("function foo() \x7b\x7d".toList) true
    (.cons (some "name")
      (.mk "identifier" ⟨row, 9⟩ ⟨row, 12⟩ ("foo".toList) true .nil) .nil)

def treeC8 : TSNode :=
  .mk "program" ⟨0, 0⟩ ⟨3, 0⟩
    ("function foo() \x7b\x7d\n\nfunction foo() \x7b\x7d\n".toList) true
    (.cons none (fnNodeC8 0) (.cons none (fnNodeC8 2) .nil))

/-! ## C9 — the edit path's missing-target policy -/

/-- The observable outcome of the tree-sitter edit path: either an error
message returned before any write, or the new file content passed to
`writeFile`. -/
inductive EditOutcome where
  | error (msg : List Char)
  | write (newCode : List Char)
deriving DecidableEq, Repr

/-- Embedding of the tree-sitter branch of `execute`
(src/tools/symbol.ts, lines 107–161), with the parse step abstracted
into the given tree: class-scoped edits locate the parent class first
and error out when it is missing; top-level edits replace/delete a
located symbol and otherwise fall back to `createTopLevel`. A falsy
(`undefined` or empty) `newCode` yields the generate error, returned
before `writeFile` is called. -/
def executeTreePath (tree : TSNode) (originalCode filePath symbolName : List Char)
    (symbolType : String) (content : List Char) :
    Option (List Char) → EditOutcome
  | some pc =>
    match findSymbol tree pc "class" with
    | none =>
      .error ("Error: Parent class '".toList ++ pc ++ "' not found in ".toList ++
        filePath ++ ".".toList)
    | some classSymbol =>
      let newCode :=
        match findSymbolInClass classSymbol.node symbolName symbolType with
        | some existing =>
          replaceSymbol originalCode ⟨existing.startPosition, existing.endPosition⟩
            content
        | none =>
          createSymbolInClass originalCode
            ⟨classSymbol.startPosition, classSymbol.endPosition⟩ content
      if newCode = [] then .error ("Error: Failed to generate modified code.".toList)
      else .write newCode
  | none =>
    let newCode :=
      match findSymbol tree symbolName symbolType with
      | some existing =>
        if content = [] then
          deleteSymbol originalCode ⟨existing.startPosition, existing.endPosition⟩
        else
          replaceSymbol originalCode ⟨existing.startPosition, existing.endPosition⟩
            content
      | none => createTopLevel originalCode content
    if newCode = [] then .error ("Error: Failed to generate modified code.".toList)
    else .write newCode

theorem splitLines_ne_nil (s : List Char) : splitLines s ≠ [] :=
  List.splitOnP_ne_nil _ s

theorem appendToLast_cons_cons (suf x y : List Char) (xs : List (List Char)) :
    appendToLast suf (x :: y :: xs) = x :: appendToLast suf (y :: xs) := rfl

/-- Setting the last element of a nonempty list to itself with a suffix
appended is exactly `appendToLast`. -/
theorem setLast_eq_appendToLast (suf : List Char) (l : List (List Char)) (h : l ≠ []) :
    l.set (l.length - 1) (l.getD (l.length - 1) [] ++ suf) = appendToLast suf l := by
  induction l with
  | nil => exact absurd rfl h
  | cons x xs ih =>
    cases xs with
    | nil => rfl
    | cons y ys =>
      have hne : (y :: ys) ≠ [] := by simp
      have hlen : (x :: y :: ys).length - 1 = (y :: ys).length - 1 + 1 := by
        simp
      rw [hlen]
      simp only [List.getD, List.get?_cons_succ, List.set_cons_succ,
        appendToLast_cons_cons]
      have := ih hne
      simp only [List.getD] at this
      rw [this]

/-- Characterization of `replaceSymbol` as an untouched prefix, a glued
middle block, and an untouched suffix of the line array. -/
theorem replaceSymbol_splice_eq (orig : List Char) (r : SymbolRange)
    (nc : List Char)
    (hlt : r.endPos.row < (splitLines orig).length) :
    replaceSymbol orig r nc =
      joinLines (
        (splitLines orig).take r.startPos.row ++
        (if r.startPos.row = r.endPos.row then
          [jsSubstrTo ((splitLines orig).getD r.startPos.row []) r.startPos.column
            ++ nc ++
            jsSubstrFrom ((splitLines orig).getD r.startPos.row []) r.endPos.column]
         else
          gluedLines
            (jsSubstrTo ((splitLines orig).getD r.startPos.row []) r.startPos.column)
            (jsSubstrFrom ((splitLines orig).getD r.endPos.row []) r.endPos.column)
            nc) ++
        (splitLines orig).drop (r.endPos.row + 1)) := by
  unfold replaceSymbol
  by_cases heq : r.startPos.row = r.endPos.row
  · simp only [heq, if_pos rfl, if_true]
    rw [List.set_eq_take_cons_drop _ hlt]
    simp
  · simp only [if_neg heq]
    congr 1
    congr 1
    congr 1
    -- the glued middle block: relate the two sequential `set`s to `gluedLines`
    unfold gluedLines
    cases hsplit : splitLines nc with
    | nil => exact absurd hsplit (splitLines_ne_nil nc)
    | cons x xs =>
      simp only [List.getD, List.get?_cons_zero, Option.getD_some, List.set_cons_zero]
      rw [← setLast_eq_appendToLast _ ((_ ++ x) :: xs) (by simp)]
      rfl

/-- C1 — Replace splice: for every located range and new content (with the
range's rows in bounds), `replaceSymbol` keeps every line before
`startLine` and after `endLine` unchanged, and replaces the span
`[startLine, endLine]` as the spec states: on a single line it splices
`newContent` between `startColumn` and `endColumn`; across lines it glues
the prefix of `startLine` before `startColumn` onto the first line of
`newContent` and the suffix of `endLine` from `endColumn` onto its last
line. -/
theorem claim_C1_replace_splice (orig : List Char) (r : SymbolRange)
    (nc : List Char)
    (_hle : r.startPos.row ≤ r.endPos.row)
    (hlt : r.endPos.row < (splitLines orig).length) :
    replaceSymbol orig r nc =
      joinLines (
        (splitLines orig).take r.startPos.row ++
        (if r.startPos.row = r.endPos.row then
          [jsSubstrTo ((splitLines orig).getD r.startPos.row []) r.startPos.column
            ++ nc ++
            jsSubstrFrom ((splitLines orig).getD r.startPos.row []) r.endPos.column]
         else
          gluedLines
            (jsSubstrTo ((splitLines orig).getD r.startPos.row []) r.startPos.column)
            (jsSubstrFrom ((splitLines orig).getD r.endPos.row []) r.endPos.column)
            nc) ++
        (splitLines orig).drop (r.endPos.row + 1)) :=
  replaceSymbol_splice_eq orig r nc hlt

/-- Witness for C1 at a concrete input: replacing the range
(0,1)–(2,1) of `"ab\ncd\nef"` with `"XY\nZ"`. -/
theorem claim_C1_replace_splice_witness :
    (0 : Nat) ≤ 2 ∧ 2 < (splitLines ("ab\ncd\nef".toList)).length ∧
    replaceSymbol ("ab\ncd\nef".toList) ⟨⟨0, 1⟩, ⟨2, 1⟩⟩ ("XY\nZ".toList) =
      joinLines (
        (splitLines ("ab\ncd\nef".toList)).take 0 ++
        (if (0 : Nat) = 2 then
          [jsSubstrTo ((splitLines ("ab\ncd\nef".toList)).getD 0 []) 1
            ++ ("XY\nZ".toList) ++
            jsSubstrFrom ((splitLines ("ab\ncd\nef".toList)).getD 0 []) 1]
         else
          gluedLines
            (jsSubstrTo ((splitLines ("ab\ncd\nef".toList)).getD 0 []) 1)
            (jsSubstrFrom ((splitLines ("ab\ncd\nef".toList)).getD 2 []) 1)
            ("XY\nZ".toList)) ++
        (splitLines ("ab\ncd\nef".toList)).drop 3) :=
  ⟨by decide, by decide,
    claim_C1_replace_splice ("ab\ncd\nef".toList) ⟨⟨0, 1⟩, ⟨2, 1⟩⟩
      ("XY\nZ".toList) (by decide) (by decide)⟩

theorem splitOnP_not_mem (p : Char → Bool) (s : List Char) :
    ∀ l ∈ s.splitOnP p, ∀ c ∈ l, p c = false := by
  induction s with
  | nil =>
    intro l hl c hc
    simp only [List.splitOnP_nil, List.mem_singleton] at hl
    subst hl
    simp at hc
  | cons a s ih =>
    intro l hl c hc
    rw [List.splitOnP_cons] at hl
    by_cases hpa : p a
    · rw [if_pos hpa] at hl
      rcases List.mem_cons.mp hl with h | h
      · subst h; simp at hc
      · exact ih l h c hc
    · rw [if_neg hpa] at hl
      cases hL : s.splitOnP p with
      | nil => exact absurd hL (List.splitOnP_ne_nil p s)
      | cons h0 t =>
        rw [hL, List.modifyHead] at hl
        rcases List.mem_cons.mp hl with h | h
        · subst h
          rcases List.mem_cons.mp hc with h | h
          · subst h; exact Bool.eq_false_iff.mpr hpa
          · exact ih h0 (hL ▸ List.mem_cons_self h0 t) c h
        · exact ih l (hL ▸ List.mem_cons_of_mem h0 h) c hc

/-- Lines produced by `splitLines` never contain the newline character. -/
theorem newline_not_mem_splitLines (s : List Char) :
    ∀ l ∈ splitLines s, '\n' ∉ l := by
  intro l hl hmem
  have := splitOnP_not_mem (· == '\n') s l hl '\n' hmem
  simp at this

theorem getD_eq_getElem_of_lt {l : List (List Char)} {n : Nat} (h : n < l.length)
    (d : List Char) : l.getD n d = l[n] := by
  simp [List.getD_eq_getElem?_getD, List.getElem?_eq_getElem h]

theorem appendToLast_append_singleton (suf x : List Char)
    (xs : List (List Char)) :
    appendToLast suf (xs ++ [x]) = xs ++ [x ++ suf] := by
  induction xs with
  | nil => rfl
  | cons y ys ih =>
    cases ys with
    | nil => rfl
    | cons z zs =>
      simp only [List.cons_append, appendToLast_cons_cons]
      rw [← List.cons_append z zs [x], ih]
      simp

theorem gluedLines_eq (pre suf nc : List Char) (x : List Char)
    (xs : List (List Char)) (h : splitLines nc = x :: xs) :
    gluedLines pre suf nc = appendToLast suf ((pre ++ x) :: xs) := by
  unfold gluedLines
  rw [h]

/-- Reconstruction of the full line array from its span decomposition. -/
theorem lines_decompose {lines : List (List Char)} {sl el : Nat}
    (hlt : sl < el) (hel : el < lines.length) :
    lines.take sl ++
      (lines.getD sl [] ::
        ((lines.drop (sl + 1)).take (el - sl - 1) ++
          lines.getD el [] :: lines.drop (el + 1))) = lines := by
  have hsl : sl < lines.length := lt_trans hlt hel
  rw [getD_eq_getElem_of_lt hsl [], getD_eq_getElem_of_lt hel []]
  conv_rhs => rw [← List.take_append_drop sl lines]
  congr 1
  rw [List.drop_eq_getElem_cons hsl]
  congr 1
  conv_rhs => rw [← List.take_append_drop (el - sl - 1) (lines.drop (sl + 1))]
  congr 1
  rw [List.drop_drop]
  have harith : sl + 1 + (el - sl - 1) = el := by omega
  rw [harith, List.drop_eq_getElem_cons hel]

/-- Round trip on the line/column path: replacing a range by its own
verbatim text is the identity. -/
theorem replace_rangeText_id (orig : List Char) (r : SymbolRange)
    (hle : r.startPos.row ≤ r.endPos.row)
    (hlt : r.endPos.row < (splitLines orig).length)
    (hcol : r.startPos.row = r.endPos.row → r.startPos.column ≤ r.endPos.column) :
    replaceSymbol orig r (rangeText orig r) = orig := by
  rw [replaceSymbol_splice_eq orig r _ hlt]
  by_cases heq : r.startPos.row = r.endPos.row
  · have hsc := hcol heq
    simp only [if_pos heq]
    unfold rangeText
    simp only [if_pos heq]
    rw [heq]
    have hline : (splitLines orig).getD r.endPos.row [] =
        (splitLines orig)[r.endPos.row] := getD_eq_getElem_of_lt hlt []
    rw [hline]
    have hmid : jsSubstrTo (splitLines orig)[r.endPos.row] r.startPos.column ++
        jsSlice (splitLines orig)[r.endPos.row] r.startPos.column r.endPos.column ++
        jsSubstrFrom (splitLines orig)[r.endPos.row] r.endPos.column =
        (splitLines orig)[r.endPos.row] := by
      unfold jsSubstrTo jsSlice jsSubstrFrom
      generalize (splitLines orig)[r.endPos.row] = line
      have h1 : (line.take r.endPos.column).take r.startPos.column =
          line.take r.startPos.column := by
        rw [List.take_take, Nat.min_eq_left hsc]
      calc line.take r.startPos.column ++
            (line.take r.endPos.column).drop r.startPos.column ++
            line.drop r.endPos.column
          = ((line.take r.endPos.column).take r.startPos.column ++
            (line.take r.endPos.column).drop r.startPos.column) ++
            line.drop r.endPos.column := by rw [h1, List.append_assoc]
        _ = line.take r.endPos.column ++ line.drop r.endPos.column := by
            rw [List.take_append_drop]
        _ = line := List.take_append_drop _ _
    rw [hmid]
    have hassemble : (splitLines orig).take r.endPos.row ++
        [(splitLines orig)[r.endPos.row]] ++
        (splitLines orig).drop (r.endPos.row + 1) = splitLines orig := by
      rw [List.append_assoc, List.singleton_append,
        ← List.drop_eq_getElem_cons hlt, List.take_append_drop]
    rw [hassemble]
    exact List.intercalate_splitOn orig '\n'
  · have hltrow : r.startPos.row < r.endPos.row := lt_of_le_of_ne hle heq
    simp only [if_neg heq]
    have hsl : r.startPos.row < (splitLines orig).length := lt_trans hltrow hlt
    have hlsl : (splitLines orig).getD r.startPos.row [] =
        (splitLines orig)[r.startPos.row] := getD_eq_getElem_of_lt hsl []
    have hlel : (splitLines orig).getD r.endPos.row [] =
        (splitLines orig)[r.endPos.row] := getD_eq_getElem_of_lt hlt []
    -- name the three segment groups of the verbatim text
    have hnl : ∀ l ∈
        (jsSubstrFrom (splitLines orig)[r.startPos.row] r.startPos.column ::
          (((splitLines orig).drop (r.startPos.row + 1)).take
              (r.endPos.row - r.startPos.row - 1) ++
            [jsSubstrTo (splitLines orig)[r.endPos.row] r.endPos.column])),
        '\n' ∉ l := by
      intro l hl
      rcases List.mem_cons.mp hl with h | h
      · subst h
        intro hc
        exact newline_not_mem_splitLines orig (splitLines orig)[r.startPos.row]
          (List.getElem_mem hsl) (List.mem_of_mem_drop hc)
      · rcases List.mem_append.mp h with h | h
        · intro hc
          exact newline_not_mem_splitLines orig l
            (List.mem_of_mem_drop (List.mem_of_mem_take h)) hc
        · rw [List.mem_singleton] at h
          subst h
          intro hc
          exact newline_not_mem_splitLines orig (splitLines orig)[r.endPos.row]
            (List.getElem_mem hlt) (List.mem_of_mem_take hc)
    have hsplit : splitLines (rangeText orig r) =
        jsSubstrFrom (splitLines orig)[r.startPos.row] r.startPos.column ::
          (((splitLines orig).drop (r.startPos.row + 1)).take
              (r.endPos.row - r.startPos.row - 1) ++
            [jsSubstrTo (splitLines orig)[r.endPos.row] r.endPos.column]) := by
      unfold rangeText
      rw [if_neg heq, hlsl, hlel]
      exact List.splitOn_intercalate _ '\n' hnl (List.cons_ne_nil _ _)
    rw [hlsl, hlel,
      gluedLines_eq _ _ _ _ _ hsplit,
      show ((jsSubstrTo (splitLines orig)[r.startPos.row] r.startPos.column ++
          jsSubstrFrom (splitLines orig)[r.startPos.row] r.startPos.column) ::
          (((splitLines orig).drop (r.startPos.row + 1)).take
              (r.endPos.row - r.startPos.row - 1) ++
            [jsSubstrTo (splitLines orig)[r.endPos.row] r.endPos.column])) =
        (((jsSubstrTo (splitLines orig)[r.startPos.row] r.startPos.column ++
          jsSubstrFrom (splitLines orig)[r.startPos.row] r.startPos.column) ::
          ((splitLines orig).drop (r.startPos.row + 1)).take
              (r.endPos.row - r.startPos.row - 1)) ++
            [jsSubstrTo (splitLines orig)[r.endPos.row] r.endPos.column]) from rfl,
      appendToLast_append_singleton]
    have h0 : jsSubstrTo (splitLines orig)[r.startPos.row] r.startPos.column ++
        jsSubstrFrom (splitLines orig)[r.startPos.row] r.startPos.column =
        (splitLines orig)[r.startPos.row] := List.take_append_drop _ _
    have hN : jsSubstrTo (splitLines orig)[r.endPos.row] r.endPos.column ++
        jsSubstrFrom (splitLines orig)[r.endPos.row] r.endPos.column =
        (splitLines orig)[r.endPos.row] := List.take_append_drop _ _
    rw [h0, hN]
    have harg : (splitLines orig).take r.startPos.row ++
        (((splitLines orig)[r.startPos.row] ::
          ((splitLines orig).drop (r.startPos.row + 1)).take
              (r.endPos.row - r.startPos.row - 1)) ++
          [(splitLines orig)[r.endPos.row]]) ++
        (splitLines orig).drop (r.endPos.row + 1) = splitLines orig := by
      have hd := lines_decompose hltrow hlt
      rw [getD_eq_getElem_of_lt hsl [], getD_eq_getElem_of_lt hlt []] at hd
      calc (splitLines orig).take r.startPos.row ++
        (((splitLines orig)[r.startPos.row] ::
          ((splitLines orig).drop (r.startPos.row + 1)).take
              (r.endPos.row - r.startPos.row - 1)) ++
          [(splitLines orig)[r.endPos.row]]) ++
        (splitLines orig).drop (r.endPos.row + 1)
          = (splitLines orig).take r.startPos.row ++
            ((splitLines orig)[r.startPos.row] ::
              (((splitLines orig).drop (r.startPos.row + 1)).take
                  (r.endPos.row - r.startPos.row - 1) ++
                (splitLines orig)[r.endPos.row] ::
                  (splitLines orig).drop (r.endPos.row + 1))) := by
            simp [List.append_assoc]
        _ = splitLines orig := hd
    rw [harg]
    exact List.intercalate_splitOn orig '\n'

/-- Round trip on the byte path: splicing back the verbatim slice is the
identity. -/
theorem byteSplice_slice_id (code : List Char) (s e : Nat) (hse : s ≤ e) :
    byteSplice code s e (jsSlice code s e) = code := by
  unfold byteSplice jsSlice
  have h1 : (code.take e).take s = code.take s := by
    rw [List.take_take, Nat.min_eq_left hse]
  calc code.take s ++ (code.take e).drop s ++ code.drop e
      = ((code.take e).take s ++ (code.take e).drop s) ++ code.drop e := by
        rw [h1, List.append_assoc]
    _ = code.take e ++ code.drop e := by rw [List.take_append_drop]
    _ = code := List.take_append_drop _ _

/-- C2 — Round-trip idempotence: on both edit paths, replacing a located
symbol with content equal to the verbatim source text of its located
range reproduces the original file byte for byte. The first conjunct is
the AST locate-one path (`replaceSymbol` over a line/column range); the
second is the heuristic fallback path (byte splice over a `{start, end}`
byte range). -/
theorem claim_C2_roundtrip :
    (∀ (orig : List Char) (r : SymbolRange),
      r.startPos.row ≤ r.endPos.row →
      r.endPos.row < (splitLines orig).length →
      (r.startPos.row = r.endPos.row → r.startPos.column ≤ r.endPos.column) →
      replaceSymbol orig r (rangeText orig r) = orig) ∧
    (∀ (code : List Char) (s e : Nat), s ≤ e →
      byteSplice code s e (jsSlice code s e) = code) :=
  ⟨replace_rangeText_id, byteSplice_slice_id⟩

/-- Witness for C2 at concrete inputs on both paths. -/
theorem claim_C2_roundtrip_witness :
    ((0 : Nat) ≤ 2 ∧ 2 < (splitLines ("ab\ncd\nef".toList)).length ∧
      ((0 : Nat) = 2 → (1 : Nat) ≤ 1) ∧
      replaceSymbol ("ab\ncd\nef".toList) ⟨⟨0, 1⟩, ⟨2, 1⟩⟩
        (rangeText ("ab\ncd\nef".toList) ⟨⟨0, 1⟩, ⟨2, 1⟩⟩) = "ab\ncd\nef".toList) ∧
    ((1 : Nat) ≤ 3 ∧
      byteSplice ("abcde".toList) 1 3 (jsSlice ("abcde".toList) 1 3) =
        "abcde".toList) :=
  ⟨⟨by decide, by decide, by decide,
    claim_C2_roundtrip.1 ("ab\ncd\nef".toList) ⟨⟨0, 1⟩, ⟨2, 1⟩⟩
      (by decide) (by decide) (by decide)⟩,
   ⟨by decide, claim_C2_roundtrip.2 ("abcde".toList) 1 3 (by decide)⟩⟩

/-- C3 — Delete: a deletion whose range starts at column 0 removes the
line span `[startLine, endLine]` and then collapses a single resulting
pair of adjacent blank lines at the splice point (`List.eraseIdx` at the
splice index); a deletion starting at a nonzero column is Replace with
empty content followed by collapsing every run of 3+ newline characters
to 2. On the spec's scenario (deleting `toBeDeleted` from the two-symbol
file), the output trims to `"const y = 20;"` with no remaining 3+ run of
newlines. -/
theorem claim_C3_delete :
    (∀ (orig : List Char) (r : SymbolRange), r.startPos.column = 0 →
      deleteSymbol orig r =
        joinLines (
          if 0 < r.startPos.row ∧
              r.startPos.row <
                ((splitLines orig).take r.startPos.row ++
                  (splitLines orig).drop (r.endPos.row + 1)).length ∧
              jsTrim (((splitLines orig).take r.startPos.row ++
                (splitLines orig).drop (r.endPos.row + 1)).getD r.startPos.row []) = [] ∧
              jsTrim (((splitLines orig).take r.startPos.row ++
                (splitLines orig).drop (r.endPos.row + 1)).getD (r.startPos.row - 1) []) = []
          then ((splitLines orig).take r.startPos.row ++
            (splitLines orig).drop (r.endPos.row + 1)).eraseIdx r.startPos.row
          else (splitLines orig).take r.startPos.row ++
            (splitLines orig).drop (r.endPos.row + 1))) ∧
    (∀ (orig : List Char) (r : SymbolRange), r.startPos.column ≠ 0 →
      deleteSymbol orig r = collapseNewlines (replaceSymbol orig r [])) ∧
    (jsTrim (fastPathNewCode
        ("function toBeDeleted() \x7b\n  console.log(\"Delete me!\");\n\x7d\nconst y = 20;".toList)
        ("toBeDeleted".toList) []) = "const y = 20;".toList ∧
      hasTripleNewline (fastPathNewCode
        ("function toBeDeleted() \x7b\n  console.log(\"Delete me!\");\n\x7d\nconst y = 20;".toList)
        ("toBeDeleted".toList) []) = false) := by
  refine ⟨?_, ?_, by decide, by decide⟩
  · intro orig r h0
    unfold deleteSymbol
    rw [if_pos h0]
    rw [List.eraseIdx_eq_take_drop_succ]
  · intro orig r h0
    unfold deleteSymbol
    rw [if_neg h0]

/-- Witness for C3's two hypothesis-bearing conjuncts at concrete
inputs: a column-0 deletion of lines 1–2 of a four-line file, and a
mid-line deletion of a single-line range. -/
theorem claim_C3_delete_witness :
    ((0 : Nat) = 0 ∧
      deleteSymbol ("a\nb\nc\nd".toList) ⟨⟨1, 0⟩, ⟨2, 1⟩⟩ =
        joinLines (
          if 0 < 1 ∧
              1 < ((splitLines ("a\nb\nc\nd".toList)).take 1 ++
                (splitLines ("a\nb\nc\nd".toList)).drop 3).length ∧
              jsTrim (((splitLines ("a\nb\nc\nd".toList)).take 1 ++
                (splitLines ("a\nb\nc\nd".toList)).drop 3).getD 1 []) = [] ∧
              jsTrim (((splitLines ("a\nb\nc\nd".toList)).take 1 ++
                (splitLines ("a\nb\nc\nd".toList)).drop 3).getD 0 []) = []
          then ((splitLines ("a\nb\nc\nd".toList)).take 1 ++
            (splitLines ("a\nb\nc\nd".toList)).drop 3).eraseIdx 1
          else (splitLines ("a\nb\nc\nd".toList)).take 1 ++
            (splitLines ("a\nb\nc\nd".toList)).drop 3)) ∧
    ((2 : Nat) ≠ 0 ∧
      deleteSymbol ("ab cd ef".toList) ⟨⟨0, 2⟩, ⟨0, 5⟩⟩ =
        collapseNewlines (replaceSymbol ("ab cd ef".toList) ⟨⟨0, 2⟩, ⟨0, 5⟩⟩ [])) :=
  ⟨⟨rfl, claim_C3_delete.1 ("a\nb\nc\nd".toList) ⟨⟨1, 0⟩, ⟨2, 1⟩⟩ rfl⟩,
   ⟨by decide, claim_C3_delete.2.1 ("ab cd ef".toList) ⟨⟨0, 2⟩, ⟨0, 5⟩⟩ (by decide)⟩⟩

/-- C4 — Create within class: with the class's closing-brace row in
bounds, the edit rewrites exactly that one physical line — splitting it
at the final closing brace column, indenting every non-blank content
line by the class indentation plus one two-space indent unit, and
reassembling `before + "\n" + indented + "\n" + classIndent + after` —
while each line before and after it is kept unchanged. -/
theorem claim_C4_create_in_class (orig : List Char) (cr : SymbolRange)
    (content : List Char)
    (hlt : cr.endPos.row < (splitLines orig).length) :
    createSymbolInClass orig cr content =
      joinLines (
        (splitLines orig).take cr.endPos.row ++
        [jsSubstrTo ((splitLines orig).getD cr.endPos.row [])
            (cr.endPos.column - 1) ++ '\n' ::
          (joinLines ((splitLines content).map
            (fun line => if jsTrim line ≠ [] then
              (getIndentation ((splitLines orig).getD cr.startPos.row []) ++
                [' ', ' ']) ++ line
              else line)) ++ '\n' ::
            (getIndentation ((splitLines orig).getD cr.startPos.row []) ++
              jsSubstrFrom ((splitLines orig).getD cr.endPos.row [])
                (cr.endPos.column - 1)))] ++
        (splitLines orig).drop (cr.endPos.row + 1)) := by
  simp only [createSymbolInClass]
  rw [List.set_eq_take_cons_drop _ hlt]
  simp

/-- Witness for C4: adding a member to `class A { ... }` whose closing
brace sits on row 2. -/
theorem claim_C4_create_in_class_witness :
    2 < (splitLines ("class A \x7b\n  foo() \x7b\x7d\n\x7d".toList)).length ∧
    createSymbolInClass ("class A \x7b\n  foo() \x7b\x7d\n\x7d".toList) ⟨⟨0, 0⟩, ⟨2, 1⟩⟩
        ("bar() \x7b\x7d".toList) =
      joinLines (
        (splitLines ("class A \x7b\n  foo() \x7b\x7d\n\x7d".toList)).take 2 ++
        [jsSubstrTo ((splitLines ("class A \x7b\n  foo() \x7b\x7d\n\x7d".toList)).getD 2 []) 0 ++ '\n' ::
          (joinLines ((splitLines ("bar() \x7b\x7d".toList)).map
            (fun line => if jsTrim line ≠ [] then
              (getIndentation ((splitLines ("class A \x7b\n  foo() \x7b\x7d\n\x7d".toList)).getD 0 []) ++
                [' ', ' ']) ++ line
              else line)) ++ '\n' ::
            (getIndentation ((splitLines ("class A \x7b\n  foo() \x7b\x7d\n\x7d".toList)).getD 0 []) ++
              jsSubstrFrom ((splitLines ("class A \x7b\n  foo() \x7b\x7d\n\x7d".toList)).getD 2 []) 0))] ++
        (splitLines ("class A \x7b\n  foo() \x7b\x7d\n\x7d".toList)).drop 3) :=
  ⟨by decide,
    claim_C4_create_in_class ("class A \x7b\n  foo() \x7b\x7d\n\x7d".toList) ⟨⟨0, 0⟩, ⟨2, 1⟩⟩
      ("bar() \x7b\x7d".toList) (by decide)⟩

/-- C5 — Create at top level: when the target symbol is not found (here,
the heuristic locator misses on the fast path, which shares the fallback
expression with the tree path), the new file content is the trimmed
content alone if the existing file trims to empty, and otherwise the
trimmed existing content, one newline, then the trimmed content. On the
spec's scenario (`"const x = 10;\n"` plus `sayHi`), the result is the
original line and the new function joined by exactly one newline. -/
theorem claim_C5_create_top_level :
    (∀ (orig nm content : List Char),
      findTopLevelFunctionRange orig nm = none →
      fastPathNewCode orig nm content = createTopLevel orig content) ∧
    (∀ (orig content : List Char), jsTrim orig = [] →
      createTopLevel orig content = jsTrim content) ∧
    (∀ (orig content : List Char), jsTrim orig ≠ [] →
      createTopLevel orig content = jsTrim orig ++ '\n' :: jsTrim content) ∧
    fastPathNewCode ("const x = 10;\n".toList) ("sayHi".toList)
        ("function sayHi() \x7b\n  console.log(\"Hi!\");\n\x7d".toList) =
      "const x = 10;\nfunction sayHi() \x7b\n  console.log(\"Hi!\");\n\x7d".toList := by
  refine ⟨?_, ?_, ?_, by decide⟩
  · intro orig nm content h
    unfold fastPathNewCode
    rw [h]
  · intro orig content h
    unfold createTopLevel
    rw [if_pos h]
  · intro orig content h
    unfold createTopLevel
    rw [if_neg h]

/-- Witness for C5's hypothesis-bearing conjuncts at concrete inputs. -/
theorem claim_C5_create_top_level_witness :
    (findTopLevelFunctionRange ("const x = 10;\n".toList) ("sayHi".toList) = none ∧
      fastPathNewCode ("const x = 10;\n".toList) ("sayHi".toList) ("f()".toList) =
        createTopLevel ("const x = 10;\n".toList) ("f()".toList)) ∧
    (jsTrim ("  \n ".toList) = [] ∧
      createTopLevel ("  \n ".toList) (" x ".toList) = jsTrim (" x ".toList)) ∧
    (jsTrim ("a".toList) ≠ [] ∧
      createTopLevel ("a".toList) ("b".toList) =
        jsTrim ("a".toList) ++ '\n' :: jsTrim ("b".toList)) :=
  ⟨⟨by decide, claim_C5_create_top_level.1 ("const x = 10;\n".toList)
      ("sayHi".toList) ("f()".toList) (by decide)⟩,
   ⟨by decide, claim_C5_create_top_level.2.1 ("  \n ".toList) (" x ".toList) (by decide)⟩,
   ⟨by decide, claim_C5_create_top_level.2.2.1 ("a".toList) ("b".toList) (by decide)⟩⟩

/-- Counterexample to C6 as stated: on a function whose parameter list
nests parentheses around a braced arrow body, the code scans only to the
first `)` (closing the inner parens), finds the arrow body's `{`, and
returns a range that stops at the arrow body's closing brace — not the
range that the "matching closing parenthesis" description produces. -/
theorem claim_C6_counterexample :
    findTopLevelFunctionRange
        ("function f(cb = (x) => \x7b return x \x7d) \x7b return cb(1) \x7d".toList)
        ("f".toList) = some (0, 35) ∧
    findTopLevelFunctionRangeClaim
        ("function f(cb = (x) => \x7b return x \x7d) \x7b return cb(1) \x7d".toList)
        ("f".toList) = some (0, 53) ∧
    (some ((0 : Nat), (35 : Nat))) ≠ (some ((0 : Nat), (53 : Nat))) := by
  refine ⟨by decide, by decide, by decide⟩

theorem findNLMatchAux_eq_find? (name code : List Char) :
    ∀ (l : List Char) (i : Nat), code.drop i = l →
    findNLMatchAux name l i =
      (lineStartPositionsAux l i).find? (fun p => sigMatchAt name code p) := by
  intro l
  induction l with
  | nil => intro i _; rfl
  | cons c rest ih =>
    intro i hdrop
    have hdrop1 : code.drop (i + 1) = rest := by
      have h1 : code.drop (i + 1) = (code.drop i).drop 1 := by
        rw [List.drop_drop]
      rw [h1, hdrop]
      rfl
    by_cases hc : c = '\n'
    · subst hc
      have hsig : sigMatchAt name code (i + 1) =
          sigMatchTail name (rest.dropWhile isWs) := by
        unfold sigMatchAt
        rw [hdrop1]
      unfold findNLMatchAux lineStartPositionsAux
      simp only [if_pos rfl, List.find?]
      rw [hsig]
      cases hm : sigMatchTail name (rest.dropWhile isWs) with
      | true => simp
      | false =>
        simp only [Bool.and_false, Bool.false_and, Bool.and_true, if_neg]
        simpa using ih (i + 1) hdrop1
    · unfold findNLMatchAux lineStartPositionsAux
      rw [if_neg hc]
      have : (decide (c = '\n') && sigMatchTail name (rest.dropWhile isWs)) = false := by
        simp [hc]
      rw [this]
      simp only [if_neg Bool.false_ne_true]
      exact ih (i + 1) hdrop1

theorem findFnMatchStart_eq_find? (code name : List Char) :
    findFnMatchStart code name =
      (lineStartPositions code).find? (fun p => sigMatchAt name code p) := by
  unfold findFnMatchStart lineStartPositions
  have h0 : sigMatchAt name code 0 = sigMatchTail name (code.dropWhile isWs) := rfl
  simp only [List.find?, h0]
  cases hm : sigMatchTail name (code.dropWhile isWs) with
  | true => rfl
  | false =>
    simp only [if_neg Bool.false_ne_true]
    exact findNLMatchAux_eq_find? name code code 0 rfl

/-- C6 (amended) — the heuristic fallback matcher finds the first
line-start occurrence of the literal pattern `function <name> (`
(leading whitespace allowed), then scans from the first opening
parenthesis to the *next* closing parenthesis (not the matching one),
then to the next `{`, then counts brace depth to zero and returns the
inclusive span; it returns no range when the pattern never matches. -/
theorem claim_C6_fallback_matcher (code name : List Char) :
    findTopLevelFunctionRange code name =
      findTopLevelFunctionRangeSpec code name := by
  unfold findTopLevelFunctionRange findTopLevelFunctionRangeSpec
  rw [findFnMatchStart_eq_find?]

/-- Counterexample to C7 as stated: `.ts` is in the supported set, yet
the map path's `loadLanguage` returns null for it. -/
theorem claim_C7_counterexample :
    ".ts" ∈ ([".js", ".jsx", ".ts", ".tsx", ".py", ".c", ".h",
      ".cpp", ".hpp", ".cxx", ".hxx"] : List String) ∧
    loadLanguageMap ".ts" = none := by
  refine ⟨by decide, by decide⟩

/-- C7 (amended) — grammar selection: on the edit path every supported
extension maps to its family's grammar (`.js/.jsx/.ts/.tsx` to the JS
grammar, `.py` to Python, `.c/.h/.cpp/.hpp/.cxx/.hxx` to the C++
grammar) and everything else to null; on the map path the same holds
except that only `.js` of the JS family is supported — `.jsx`, `.ts`
and `.tsx` yield null there. -/
theorem claim_C7_grammar_selection :
    (loadLanguageEdit ".js" = some Grammar.js ∧
      loadLanguageEdit ".jsx" = some Grammar.js ∧
      loadLanguageEdit ".ts" = some Grammar.js ∧
      loadLanguageEdit ".tsx" = some Grammar.js ∧
      loadLanguageEdit ".py" = some Grammar.python ∧
      loadLanguageEdit ".c" = some Grammar.cpp ∧
      loadLanguageEdit ".h" = some Grammar.cpp ∧
      loadLanguageEdit ".cpp" = some Grammar.cpp ∧
      loadLanguageEdit ".hpp" = some Grammar.cpp ∧
      loadLanguageEdit ".cxx" = some Grammar.cpp ∧
      loadLanguageEdit ".hxx" = some Grammar.cpp) ∧
    (∀ ext : String,
      ext ∉ ([".js", ".jsx", ".ts", ".tsx", ".py", ".c", ".h",
        ".cpp", ".hpp", ".cxx", ".hxx"] : List String) →
      loadLanguageEdit ext = none) ∧
    (loadLanguageMap ".js" = some Grammar.js ∧
      loadLanguageMap ".py" = some Grammar.python ∧
      loadLanguageMap ".c" = some Grammar.cpp ∧
      loadLanguageMap ".h" = some Grammar.cpp ∧
      loadLanguageMap ".cpp" = some Grammar.cpp ∧
      loadLanguageMap ".hpp" = some Grammar.cpp ∧
      loadLanguageMap ".cxx" = some Grammar.cpp ∧
      loadLanguageMap ".hxx" = some Grammar.cpp ∧
      loadLanguageMap ".jsx" = none ∧
      loadLanguageMap ".ts" = none ∧
      loadLanguageMap ".tsx" = none) ∧
    (∀ ext : String,
      ext ∉ ([".js", ".py", ".c", ".h", ".cpp", ".hpp", ".cxx", ".hxx"] :
        List String) →
      loadLanguageMap ext = none) := by
  refine ⟨by decide, ?_, by decide, ?_⟩
  · intro ext h
    simp only [List.mem_cons, List.not_mem_nil, or_false, not_or] at h
    obtain ⟨h1, h2, h3, h4, h5, h6, h7, h8, h9, h10, h11⟩ := h
    simp [loadLanguageEdit, h1, h2, h3, h4, h5, h6, h7, h8, h9, h10, h11]
  · intro ext h
    simp only [List.mem_cons, List.not_mem_nil, or_false, not_or] at h
    obtain ⟨h1, h2, h3, h4, h5, h6, h7, h8⟩ := h
    simp [loadLanguageMap, h1, h2, h3, h4, h5, h6, h7, h8]

/-- Witness for C7's universally-quantified conjuncts at concrete
unsupported extensions. -/
theorem claim_C7_grammar_selection_witness :
    (".txt" ∉ ([".js", ".jsx", ".ts", ".tsx", ".py", ".c", ".h",
        ".cpp", ".hpp", ".cxx", ".hxx"] : List String) ∧
      loadLanguageEdit ".txt" = none) ∧
    (".tsx" ∉ ([".js", ".py", ".c", ".h", ".cpp", ".hpp", ".cxx", ".hxx"] :
        List String) ∧
      loadLanguageMap ".tsx" = none) :=
  ⟨⟨by decide, claim_C7_grammar_selection.2.1 ".txt" (by decide)⟩,
   ⟨by decide, claim_C7_grammar_selection.2.2.2 ".tsx" (by decide)⟩⟩

theorem self_mem_preorderNode (n : TSNode) : n ∈ preorderNode n := by
  cases n with
  | mk ty sp ep tx nm ch =>
    rw [preorderNode]
    exact List.mem_cons_self _ _

theorem mem_preorderNode_of_mem_children {c : TSNode} {n : TSNode}
    (h : c ∈ preorderChildren n.children) : c ∈ preorderNode n := by
  cases n with
  | mk ty sp ep tx nm ch =>
    rw [preorderNode]
    exact List.mem_cons_of_mem _ h

theorem fieldLookup_mem_preorderChildren {f : String} {c : TSNode} :
    ∀ (ch : TSChildren), ch.fieldLookup f = some c → c ∈ preorderChildren ch
  | .nil, h => absurd h (by simp [TSChildren.fieldLookup])
  | .cons fl c' rest, h => by
    rw [TSChildren.fieldLookup] at h
    by_cases hfl : fl = some f
    · rw [if_pos hfl] at h
      injection h with h
      subst h
      rw [preorderChildren]
      exact List.mem_append_left _ (self_mem_preorderNode c')
    · rw [if_neg hfl] at h
      rw [preorderChildren]
      exact List.mem_append_right _ (fieldLookup_mem_preorderChildren rest h)

theorem childForFieldName_mem_preorder {f : String} {n c : TSNode}
    (h : n.childForFieldName f = some c) : c ∈ preorderNode n :=
  mem_preorderNode_of_mem_children (fieldLookup_mem_preorderChildren _ h)

mutual
theorem findSymbolNode_eq_find (nm : List Char) (sty : String) :
    ∀ n : TSNode,
      findSymbolNode nm sty n = (preorderNode n).find? (fsMatchNode nm sty)
  | .mk ty sp ep tx nmd ch => by
    rw [findSymbolNode, preorderNode]
    by_cases h : fsMatchNode nm sty (.mk ty sp ep tx nmd ch) = true
    · rw [if_pos h, List.find?_cons_of_pos _ h]
    · rw [if_neg h, List.find?_cons_of_neg _ h]
      exact findSymbolChildren_eq_find nm sty ch
theorem findSymbolChildren_eq_find (nm : List Char) (sty : String) :
    ∀ ch : TSChildren,
      findSymbolChildren nm sty ch = (preorderChildren ch).find? (fsMatchNode nm sty)
  | .nil => by rw [findSymbolChildren, preorderChildren]; rfl
  | .cons f c rest => by
    rw [findSymbolChildren, preorderChildren, List.find?_append,
      ← findSymbolNode_eq_find nm sty c, ← findSymbolChildren_eq_find nm sty rest]
    cases findSymbolNode nm sty c <;> rfl
end

mutual
theorem findInClassNode_eq_find (nm : List Char) (sty : String) :
    ∀ n : TSNode,
      findInClassNode nm sty n = (preorderPrunedNode n).find? (fscMatchNode nm sty)
  | .mk ty sp ep tx nmd ch => by
    rw [findInClassNode, preorderPrunedNode]
    by_cases h : fscMatchNode nm sty (.mk ty sp ep tx nmd ch) = true
    · rw [if_pos h, List.find?_cons_of_pos _ h]
    · rw [if_neg h, List.find?_cons_of_neg _ h]
      exact findInClassChildren_eq_find nm sty ch
theorem findInClassChildren_eq_find (nm : List Char) (sty : String) :
    ∀ ch : TSChildren,
      findInClassChildren nm sty ch =
        (preorderPrunedChildren ch).find? (fscMatchNode nm sty)
  | .nil => by rw [findInClassChildren, preorderPrunedChildren]; rfl
  | .cons f c rest => by
    rw [findInClassChildren, preorderPrunedChildren, List.find?_append,
      ← findInClassChildren_eq_find nm sty rest]
    by_cases hcls : c.ty = "class_declaration" ∨ c.ty = "class_definition"
    · rw [if_pos hcls, if_pos hcls]
      rfl
    · rw [if_neg hcls, if_neg hcls, ← findInClassNode_eq_find nm sty c]
      cases findInClassNode nm sty c <;> rfl
end

theorem fsMatchNode_constructor (nm : List Char) (n : TSNode) :
    fsMatchNode nm "constructor" n = constructorMatch nm n := by
  by_cases hty : n.ty = "method_definition"
  · cases hf : n.childForFieldName "name" with
    | none =>
      simp +decide [fsMatchNode, constructorMatch, targetTypes, hty, hf, nodeIdNode]
    | some x =>
      simp +decide [fsMatchNode, constructorMatch, targetTypes, hty, hf, nodeIdNode]
  · simp +decide [fsMatchNode, constructorMatch, targetTypes, hty]

theorem fscMatchNode_constructor (nm : List Char) (n : TSNode) :
    fscMatchNode nm "constructor" n = constructorMatch nm n := by
  by_cases hty : n.ty = "method_definition"
  · cases hf : n.childForFieldName "name" with
    | none =>
      simp +decide [fscMatchNode, constructorMatch, targetTypesInClass, hty, hf,
        nodeIdNode]
    | some x =>
      simp +decide [fscMatchNode, constructorMatch, targetTypesInClass, hty, hf,
        nodeIdNode]
  · simp +decide [fscMatchNode, constructorMatch, targetTypesInClass, hty]

/-- Counterexample to C10 as stated: in a class whose method `foo`
precedes its constructor, a constructor lookup with `symbolName = "foo"`
returns the `foo` method (row 1) on both locators — not the first
`method_definition` named `constructor` (row 2) — so the supplied
`symbolName` *is* compared. -/
theorem claim_C10_counterexample :
    (findSymbol treeC10 ("foo".toList) "constructor").map
        (fun si => si.startPosition.row) = some 1 ∧
    (findSymbolInClass classNodeC10 ("foo".toList) "constructor").map
        (fun si => si.startPosition.row) = some 1 ∧
    ((preorderNode treeC10).find? (fun m => m.ty = "method_definition" &&
        (match m.childForFieldName "name" with
          | some x => x.text = "constructor".toList
          | none => false))).map (fun m => m.sp.row) = some 2 ∧
    (1 : Nat) ≠ 2 := by
  refine ⟨by decide, by decide, by decide, by decide⟩

/-- C10 (amended) — for `symbolType = "constructor"`, both locators
return the *first* `method_definition` in their visiting order whose
name field reads `constructor` or whose resolved name equals the
supplied `symbolName`; in particular the supplied name is still
compared, and only when no earlier method matches it does the lookup
land on the first constructor. -/
theorem claim_C10_constructor_lookup (tree cls : TSNode) (nm : List Char) :
    findSymbol tree nm "constructor" =
      ((preorderNode tree).find? (constructorMatch nm)).map createSymbolInfo ∧
    findSymbolInClass cls nm "constructor" =
      ((preorderPrunedNode cls).find? (constructorMatch nm)).map createSymbolInfo := by
  have h1 : fsMatchNode nm "constructor" = constructorMatch nm :=
    funext (fsMatchNode_constructor nm)
  have h2 : fscMatchNode nm "constructor" = constructorMatch nm :=
    funext (fscMatchNode_constructor nm)
  constructor
  · unfold findSymbol
    rw [findSymbolNode_eq_find, h1]
  · unfold findSymbolInClass
    rw [findInClassNode_eq_find, h2]

/-- A node whose type is in the target set, is none of the specially
resolved statement types, and whose resolved name (field `name`, else
first named child) matches, satisfies `findSymbol`'s matcher. -/
theorem fsMatchNode_of_resolved (nm : List Char) (sty : String) (n : TSNode)
    (hc : (targetTypes sty).contains n.ty = true)
    (hne : n.ty ≠ "export_statement")
    (hnl : n.ty ≠ "lexical_declaration")
    (hnv : n.ty ≠ "variable_declaration")
    (x : TSNode) (hx : nodeIdNode n = some x) (ht : x.text = nm) :
    fsMatchNode nm sty n = true := by
  unfold fsMatchNode
  simp only [hc, if_true, if_neg hne, if_neg (by simp [hnl, hnv] :
    ¬(n.ty = "lexical_declaration" ∨ n.ty = "variable_declaration"))]
  unfold nodeIdNode at hx
  cases hf : n.childForFieldName "name" with
  | some y =>
    rw [hf] at hx
    injection hx with hx
    subst hx
    simp [ht]
  | none =>
    rw [hf] at hx
    have hx' : n.namedChildZero = some x := hx
    simp [hx', ht]

/-- A variable-statement node whose first `variable_declarator`
descendant's name field matches satisfies `findSymbol`'s matcher. -/
theorem fsMatchNode_of_declarator (nm : List Char) (sty : String) (n d x : TSNode)
    (hc : (targetTypes sty).contains n.ty = true)
    (hne : n.ty ≠ "export_statement")
    (hl : n.ty = "lexical_declaration" ∨ n.ty = "variable_declaration")
    (hd : TSNode.firstDescendantOfType "variable_declarator" n = some d)
    (hx : d.childForFieldName "name" = some x) (ht : x.text = nm) :
    fsMatchNode nm sty n = true := by
  unfold fsMatchNode
  simp only [hc, if_true, if_neg hne, if_pos hl, hd, hx]
  simp [ht]

/-- A kind produced by the enumerate table (other than the variable
kind of a `lexical_declaration`, handled separately) has the producing
node type among `findSymbol`'s target types for that kind. -/
theorem extractKind_mem_targetTypes {ty kind : String}
    (h : extractKind ty = some kind)
    (hk : kind ∈ allowedKinds)
    (hnl : ty ≠ "lexical_declaration") :
    (targetTypes kind).contains ty = true := by
  unfold extractKind at h
  repeat' split at h
  all_goals try (exact Option.noConfusion h)
  all_goals (injection h with h; subst h; simp_all +decide [targetTypes, allowedKinds])

/-- Destructor for membership in `exportEmit`. -/
theorem exportEmit_mem {n : TSNode} {idNode : Option TSNode} {kind : String}
    {sym : SymbolEntry} (hmem : sym ∈ exportEmit n idNode kind) :
    ∃ idn, idNode = some idn ∧
      sym = ⟨idn.text, kind, sigOf n.text, n.sp.row + 1, none⟩ := by
  unfold exportEmit at hmem
  cases idNode with
  | none => exact absurd hmem (List.not_mem_nil sym)
  | some idn => exact ⟨idn, rfl, List.mem_singleton.mp hmem⟩

/-- Soundness of the export branch: each allowed-kind symbol it emits
has, somewhere in the export node's subtree, a node matching
`findSymbol`'s matcher for that (name, kind). -/
theorem exportBranch_sound (n : TSNode) (sym : SymbolEntry)
    (hmem : sym ∈ exportBranch n) (hkind : sym.kind ∈ allowedKinds) :
    ∃ m, m ∈ preorderNode n ∧ fsMatchNode sym.name sym.kind m = true := by
  unfold exportBranch at hmem
  cases hdecl : n.childForFieldName "declaration" with
  | none =>
    rw [hdecl] at hmem
    exact absurd hmem (List.not_mem_nil sym)
  | some decl =>
    rw [hdecl] at hmem
    replace hmem : sym ∈
      (if decl.ty = "function_declaration" then
        exportEmit n (decl.childForFieldName "name") "function"
      else if decl.ty = "class_declaration" then
        exportEmit n (decl.childForFieldName "name") "class"
      else if decl.ty = "lexical_declaration" ∨ decl.ty = "variable_declaration" then
        (match TSNode.firstDescendantOfType "variable_declarator" decl with
          | some d => exportEmit n (d.childForFieldName "name") "variable"
          | none => exportEmit n (n.childForFieldName "name") "export")
      else exportEmit n (n.childForFieldName "name") "export") := hmem
    have hmemdecl : decl ∈ preorderNode n := childForFieldName_mem_preorder hdecl
    by_cases hf : decl.ty = "function_declaration"
    · rw [if_pos hf] at hmem
      obtain ⟨idn, hn, rfl⟩ := exportEmit_mem hmem
      refine ⟨decl, hmemdecl, ?_⟩
      have hc : (targetTypes "function").contains decl.ty = true := by
        rw [hf]; decide
      have h1 : decl.ty ≠ "export_statement" := by rw [hf]; decide
      have h2 : decl.ty ≠ "lexical_declaration" := by rw [hf]; decide
      have h3 : decl.ty ≠ "variable_declaration" := by rw [hf]; decide
      exact fsMatchNode_of_resolved idn.text "function" decl hc h1 h2 h3
        idn (by unfold nodeIdNode; rw [hn]) rfl
    · rw [if_neg hf] at hmem
      by_cases hcl : decl.ty = "class_declaration"
      · rw [if_pos hcl] at hmem
        obtain ⟨idn, hn, rfl⟩ := exportEmit_mem hmem
        refine ⟨decl, hmemdecl, ?_⟩
        have hc : (targetTypes "class").contains decl.ty = true := by
          rw [hcl]; decide
        have h1 : decl.ty ≠ "export_statement" := by rw [hcl]; decide
        have h2 : decl.ty ≠ "lexical_declaration" := by rw [hcl]; decide
        have h3 : decl.ty ≠ "variable_declaration" := by rw [hcl]; decide
        exact fsMatchNode_of_resolved idn.text "class" decl hc h1 h2 h3
          idn (by unfold nodeIdNode; rw [hn]) rfl
      · rw [if_neg hcl] at hmem
        by_cases hlv : decl.ty = "lexical_declaration" ∨
            decl.ty = "variable_declaration"
        · rw [if_pos hlv] at hmem
          cases hdd : TSNode.firstDescendantOfType "variable_declarator" decl with
          | none =>
            rw [hdd] at hmem
            obtain ⟨idn, hn, rfl⟩ := exportEmit_mem hmem
            exact absurd hkind (by simp [allowedKinds])
          | some d =>
            rw [hdd] at hmem
            obtain ⟨idn, hn, rfl⟩ :=
              exportEmit_mem (show sym ∈
                exportEmit n (d.childForFieldName "name") "variable" from hmem)
            refine ⟨decl, hmemdecl, ?_⟩
            have hc : (targetTypes "variable").contains decl.ty = true := by
              rcases hlv with h | h <;> rw [h] <;> decide
            have h1 : decl.ty ≠ "export_statement" := by
              rcases hlv with h | h <;> rw [h] <;> decide
            exact fsMatchNode_of_declarator idn.text "variable" decl d idn
              hc h1 hlv hdd hn rfl
        · rw [if_neg hlv] at hmem
          obtain ⟨idn, hn, rfl⟩ := exportEmit_mem hmem
          exact absurd hkind (by simp [allowedKinds])

/-- Soundness of the variable-declaration branch: the statement node
itself matches `findSymbol`'s `variable` matcher. -/
theorem lexicalBranch_sound (n : TSNode) (sym : SymbolEntry)
    (hmem : sym ∈ lexicalBranch n "variable")
    (hl : n.ty = "lexical_declaration" ∨ n.ty = "variable_declaration") :
    ∃ m, m ∈ preorderNode n ∧ fsMatchNode sym.name sym.kind m = true := by
  unfold lexicalBranch at hmem
  cases hdd : TSNode.firstDescendantOfType "variable_declarator" n with
  | none =>
    rw [hdd] at hmem
    exact absurd hmem (List.not_mem_nil sym)
  | some d =>
    rw [hdd] at hmem
    replace hmem : sym ∈
      (match d.childForFieldName "name" with
        | some idn =>
          [(⟨idn.text, "variable", sigOf d.text, d.sp.row + 1, none⟩ : SymbolEntry)]
        | none => []) := hmem
    cases hn : d.childForFieldName "name" with
    | none => rw [hn] at hmem; exact absurd hmem (List.not_mem_nil sym)
    | some idn =>
      rw [hn] at hmem
      rcases List.mem_singleton.mp hmem with rfl
      refine ⟨n, self_mem_preorderNode n, ?_⟩
      refine fsMatchNode_of_declarator idn.text "variable" n d idn ?_ ?_ hl hdd hn rfl
      · rcases hl with h | h <;> rw [h] <;> decide
      · rcases hl with h | h <;> rw [h] <;> decide

/-- The method-in-class branch only emits symbols with a parent class. -/
theorem methodBranch_parentClass (n : TSNode) (parent : Option SymbolEntry)
    (sym : SymbolEntry) (hmem : sym ∈ methodBranch n parent)
    (hp : isClassParent parent = true) : sym.parentClass ≠ none := by
  unfold methodBranch at hmem
  cases hn : n.childForFieldName "name" with
  | none => rw [hn] at hmem; exact absurd hmem (List.not_mem_nil sym)
  | some idn =>
    rw [hn] at hmem
    rcases List.mem_singleton.mp hmem with rfl
    cases parent with
    | none => exact absurd hp (by simp [isClassParent])
    | some p => simp

mutual
/-- Every symbol the enumerate traversal emits with no parent class and
an allowed kind has a node in the traversed subtree that `findSymbol`'s
matcher accepts for the same (name, kind). -/
theorem exNode_sound :
    ∀ (n : TSNode) (depth : Nat) (parent : Option SymbolEntry) (sym : SymbolEntry),
      sym ∈ exNode n depth parent → sym.parentClass = none →
      sym.kind ∈ allowedKinds →
      ∃ m, m ∈ preorderNode n ∧ fsMatchNode sym.name sym.kind m = true
  | .mk ty sp ep tx nmd ch, depth, parent, sym, hmem, hpc, hkind => by
    cases hk : extractKind ty with
    | none =>
      replace hmem : sym ∈ exChildren ch (depth + 1) parent := by
        have h0 : sym ∈ (match extractKind ty with
          | some kind =>
            if kind = "program" then exChildren ch (depth + 1) parent
            else if ty = "export_statement" then
              (if depth = 1 then exportBranch (.mk ty sp ep tx nmd ch) else [])
            else if ty = "lexical_declaration" ∨ ty = "variable_declaration" then
              (if depth = 1 then lexicalBranch (.mk ty sp ep tx nmd ch) kind else [])
            else if ty = "method_definition" ∧ isClassParent parent then
              methodBranch (.mk ty sp ep tx nmd ch) parent
            else if depth = 1 then
              (match nodeIdNode (.mk ty sp ep tx nmd ch) with
                | some idn =>
                  (⟨idn.text, kind, sigOf tx, sp.row + 1, none⟩ : SymbolEntry) ::
                    (if kind = "class" then
                      exChildren ch (depth + 1)
                        (some ⟨idn.text, kind, sigOf tx, sp.row + 1, none⟩)
                     else exChildren ch (depth + 1) parent)
                | none => exChildren ch (depth + 1) parent)
            else exChildren ch (depth + 1) parent
          | none => exChildren ch (depth + 1) parent) := hmem
        rw [hk] at h0
        exact h0
      obtain ⟨m, hm, hmatch⟩ :=
        exChildren_sound ch (depth + 1) parent sym hmem hpc hkind
      exact ⟨m, List.mem_cons_of_mem _ hm, hmatch⟩
    | some kind =>
      replace hmem : sym ∈
        (if kind = "program" then exChildren ch (depth + 1) parent
        else if ty = "export_statement" then
          (if depth = 1 then exportBranch (.mk ty sp ep tx nmd ch) else [])
        else if ty = "lexical_declaration" ∨ ty = "variable_declaration" then
          (if depth = 1 then lexicalBranch (.mk ty sp ep tx nmd ch) kind else [])
        else if ty = "method_definition" ∧ isClassParent parent then
          methodBranch (.mk ty sp ep tx nmd ch) parent
        else if depth = 1 then
          (match nodeIdNode (.mk ty sp ep tx nmd ch) with
            | some idn =>
              (⟨idn.text, kind, sigOf tx, sp.row + 1, none⟩ : SymbolEntry) ::
                (if kind = "class" then
                  exChildren ch (depth + 1)
                    (some ⟨idn.text, kind, sigOf tx, sp.row + 1, none⟩)
                 else exChildren ch (depth + 1) parent)
            | none => exChildren ch (depth + 1) parent)
        else exChildren ch (depth + 1) parent) := by
        have h0 : sym ∈ (match extractKind ty with
          | some kind =>
            if kind = "program" then exChildren ch (depth + 1) parent
            else if ty = "export_statement" then
              (if depth = 1 then exportBranch (.mk ty sp ep tx nmd ch) else [])
            else if ty = "lexical_declaration" ∨ ty = "variable_declaration" then
              (if depth = 1 then lexicalBranch (.mk ty sp ep tx nmd ch) kind else [])
            else if ty = "method_definition" ∧ isClassParent parent then
              methodBranch (.mk ty sp ep tx nmd ch) parent
            else if depth = 1 then
              (match nodeIdNode (.mk ty sp ep tx nmd ch) with
                | some idn =>
                  (⟨idn.text, kind, sigOf tx, sp.row + 1, none⟩ : SymbolEntry) ::
                    (if kind = "class" then
                      exChildren ch (depth + 1)
                        (some ⟨idn.text, kind, sigOf tx, sp.row + 1, none⟩)
                     else exChildren ch (depth + 1) parent)
                | none => exChildren ch (depth + 1) parent)
            else exChildren ch (depth + 1) parent
          | none => exChildren ch (depth + 1) parent) := hmem
        rw [hk] at h0
        exact h0
      by_cases hprog : kind = "program"
      · rw [if_pos hprog] at hmem
        obtain ⟨m, hm, hmatch⟩ :=
          exChildren_sound ch (depth + 1) parent sym hmem hpc hkind
        exact ⟨m, List.mem_cons_of_mem _ hm, hmatch⟩
      · rw [if_neg hprog] at hmem
        by_cases hexp : ty = "export_statement"
        · rw [if_pos hexp] at hmem
          by_cases hd1 : depth = 1
          · rw [if_pos hd1] at hmem
            exact exportBranch_sound _ sym hmem hkind
          · rw [if_neg hd1] at hmem
            exact absurd hmem (List.not_mem_nil sym)
        · rw [if_neg hexp] at hmem
          by_cases hlv : ty = "lexical_declaration" ∨ ty = "variable_declaration"
          · rw [if_pos hlv] at hmem
            by_cases hd1 : depth = 1
            · rw [if_pos hd1] at hmem
              have hkv : kind = "variable" := by
                rcases hlv with h | h
                · rw [h] at hk
                  rw [(by decide :
                    extractKind "lexical_declaration" = some "variable")] at hk
                  injection hk with hk
                  exact hk.symm
                · rw [h] at hk
                  rw [(by decide :
                    extractKind "variable_declaration" = (none : Option String))] at hk
                  exact Option.noConfusion hk
              subst hkv
              exact lexicalBranch_sound _ sym hmem hlv
            · rw [if_neg hd1] at hmem
              exact absurd hmem (List.not_mem_nil sym)
          · rw [if_neg hlv] at hmem
            by_cases hmeth : ty = "method_definition" ∧ isClassParent parent = true
            · rw [if_pos hmeth] at hmem
              exact absurd hpc (methodBranch_parentClass _ parent sym hmem hmeth.2)
            · rw [if_neg hmeth] at hmem
              by_cases hd1 : depth = 1
              · rw [if_pos hd1] at hmem
                cases hid : nodeIdNode (.mk ty sp ep tx nmd ch) with
                | none =>
                  rw [hid] at hmem
                  replace hmem : sym ∈ exChildren ch (depth + 1) parent := hmem
                  obtain ⟨m, hm, hmatch⟩ :=
                    exChildren_sound ch (depth + 1) parent sym hmem hpc hkind
                  exact ⟨m, List.mem_cons_of_mem _ hm, hmatch⟩
                | some idn =>
                  rw [hid] at hmem
                  replace hmem : sym ∈
                    (⟨idn.text, kind, sigOf tx, sp.row + 1, none⟩ : SymbolEntry) ::
                      (if kind = "class" then
                        exChildren ch (depth + 1)
                          (some ⟨idn.text, kind, sigOf tx, sp.row + 1, none⟩)
                       else exChildren ch (depth + 1) parent) := hmem
                  rcases List.mem_cons.mp hmem with rfl | hrest
                  · refine ⟨.mk ty sp ep tx nmd ch, self_mem_preorderNode _, ?_⟩
                    have hc : (targetTypes kind).contains ty = true :=
                      extractKind_mem_targetTypes hk hkind
                        (fun h => hlv (Or.inl h))
                    exact fsMatchNode_of_resolved idn.text kind
                      (.mk ty sp ep tx nmd ch) hc hexp
                      (fun h => hlv (Or.inl h)) (fun h => hlv (Or.inr h))
                      idn hid rfl
                  · by_cases hcls : kind = "class"
                    · rw [if_pos hcls] at hrest
                      obtain ⟨m, hm, hmatch⟩ := exChildren_sound ch (depth + 1)
                        (some ⟨idn.text, kind, sigOf tx, sp.row + 1, none⟩)
                        sym hrest hpc hkind
                      exact ⟨m, List.mem_cons_of_mem _ hm, hmatch⟩
                    · rw [if_neg hcls] at hrest
                      obtain ⟨m, hm, hmatch⟩ :=
                        exChildren_sound ch (depth + 1) parent sym hrest hpc hkind
                      exact ⟨m, List.mem_cons_of_mem _ hm, hmatch⟩
              · rw [if_neg hd1] at hmem
                obtain ⟨m, hm, hmatch⟩ :=
                  exChildren_sound ch (depth + 1) parent sym hmem hpc hkind
                exact ⟨m, List.mem_cons_of_mem _ hm, hmatch⟩
theorem exChildren_sound :
    ∀ (ch : TSChildren) (depth : Nat) (parent : Option SymbolEntry)
      (sym : SymbolEntry),
      sym ∈ exChildren ch depth parent → sym.parentClass = none →
      sym.kind ∈ allowedKinds →
      ∃ m, m ∈ preorderChildren ch ∧ fsMatchNode sym.name sym.kind m = true
  | .nil, _, _, sym, hmem, _, _ => absurd hmem (List.not_mem_nil sym)
  | .cons f c rest, depth, parent, sym, hmem, hpc, hkind => by
    replace hmem : sym ∈ exNode c depth parent ++ exChildren rest depth parent :=
      hmem
    rcases List.mem_append.mp hmem with h | h
    · obtain ⟨m, hm, hmatch⟩ := exNode_sound c depth parent sym h hpc hkind
      refine ⟨m, ?_, hmatch⟩
      rw [preorderChildren]
      exact List.mem_append_left _ hm
    · obtain ⟨m, hm, hmatch⟩ := exChildren_sound rest depth parent sym h hpc hkind
      refine ⟨m, ?_, hmatch⟩
      rw [preorderChildren]
      exact List.mem_append_right _ hm
end

/-- Counterexample to C8 as stated: Enumerate lists both top-level
functions named `foo` (declaration lines 1 and 3), but Locate-one
short-circuits on the first, so for the second symbol the located
node's declaration line (1) differs from the symbol's (3). -/
theorem claim_C8_counterexample :
    (⟨"foo".toList, "function", "function foo() \x7b\x7d".toList, 3, none⟩ :
        SymbolEntry) ∈ extractSymbols treeC8 ∧
    (findSymbol treeC8 ("foo".toList) "function").map
        (fun si => si.startPosition.row + 1) = some 1 ∧
    (1 : Nat) ≠ 3 := by
  refine ⟨by decide, by decide, by decide⟩

/-- C8 (amended) — enumerate-then-locate: for every symbol Enumerate
returns with no `parentClass` and kind `function`, `class`, `variable`
or `method`, Locate-one with the same (name, kind) succeeds (finds some
node). The located node's declaration line can differ from the
symbol's — Locate-one returns the first depth-first match, which
duplicate names, nested shadowing declarations, export wrappers or
multi-line variable statements can place elsewhere — and `struct` /
`export` kind symbols need not be locatable at all. -/
theorem claim_C8_enumerate_locate (tree : TSNode) (sym : SymbolEntry)
    (hmem : sym ∈ extractSymbols tree) (hpc : sym.parentClass = none)
    (hkind : sym.kind ∈ allowedKinds) :
    (findSymbol tree sym.name sym.kind).isSome = true := by
  obtain ⟨m, hm, hmatch⟩ := exNode_sound tree 0 none sym hmem hpc hkind
  unfold findSymbol
  rw [Option.isSome_map']
  rw [findSymbolNode_eq_find]
  exact List.find?_isSome.mpr ⟨m, hm, hmatch⟩

/-- Witness for C8 at a concrete input: the first `foo` of the
counterexample tree is locatable. -/
theorem claim_C8_enumerate_locate_witness :
    (⟨"foo".toList, "function", "function foo() \x7b\x7d".toList, 1, none⟩ :
        SymbolEntry) ∈ extractSymbols treeC8 ∧
    (⟨"foo".toList, "function", "function foo() \x7b\x7d".toList, 1, none⟩ :
        SymbolEntry).parentClass = none ∧
    (⟨"foo".toList, "function", "function foo() \x7b\x7d".toList, 1, none⟩ :
        SymbolEntry).kind ∈ allowedKinds ∧
    (findSymbol treeC8
      (⟨"foo".toList, "function", "function foo() \x7b\x7d".toList, 1, none⟩ :
        SymbolEntry).name
      (⟨"foo".toList, "function", "function foo() \x7b\x7d".toList, 1, none⟩ :
        SymbolEntry).kind).isSome = true :=
  ⟨by decide, by decide, by decide,
    claim_C8_enumerate_locate treeC8
      ⟨"foo".toList, "function", "function foo() \x7b\x7d".toList, 1, none⟩
      (by decide) (by decide) (by decide)⟩

/-- Counterexample to C9 as stated: deleting a symbol that does not
exist (no parent class) in an empty file makes the fallback `newCode`
the empty string, which the falsy check `if (!newCode)` treats as a
failure — the request errors out and no write is performed, although the
claim promises every such request succeeds with a write. -/
theorem claim_C9_counterexample :
    executeTreePath (.mk "program" ⟨0, 0⟩ ⟨0, 0⟩ [] true .nil) [] ("a.py".toList)
        ("x".toList) "function" [] none =
      .error ("Error: Failed to generate modified code.".toList) ∧
    findSymbol (.mk "program" ⟨0, 0⟩ ⟨0, 0⟩ [] true .nil) ("x".toList) "function" =
      none := by
  refine ⟨by decide, rfl⟩

/-- C9 (amended) — missing-target policy on the edit path: when a parent
class is specified and not found, the request returns the hard error
naming the missing class, before any write; when no parent class is
specified and the target symbol is not found, the request performs a
write of the append/become-file-content fallback — provided that
fallback content is non-empty (an all-whitespace file together with
empty content trips the falsy `newCode` check and errors instead). -/
theorem claim_C9_missing_target (tree : TSNode)
    (orig filePath nm : List Char) (sty : String) (content : List Char) :
    (∀ pc : List Char, findSymbol tree pc "class" = none →
      executeTreePath tree orig filePath nm sty content (some pc) =
        .error ("Error: Parent class '".toList ++ pc ++ "' not found in ".toList ++
          filePath ++ ".".toList)) ∧
    (findSymbol tree nm sty = none → createTopLevel orig content ≠ [] →
      executeTreePath tree orig filePath nm sty content none =
        .write (createTopLevel orig content)) := by
  constructor
  · intro pc h
    show (match findSymbol tree pc "class" with
      | none =>
        EditOutcome.error ("Error: Parent class '".toList ++ pc ++
          "' not found in ".toList ++ filePath ++ ".".toList)
      | some classSymbol =>
        let newCode :=
          match findSymbolInClass classSymbol.node nm sty with
          | some existing =>
            replaceSymbol orig ⟨existing.startPosition, existing.endPosition⟩
              content
          | none =>
            createSymbolInClass orig
              ⟨classSymbol.startPosition, classSymbol.endPosition⟩ content
        if newCode = [] then
          EditOutcome.error ("Error: Failed to generate modified code.".toList)
        else EditOutcome.write newCode) = _
    rw [h]
  · intro h hne
    show (let newCode :=
        match findSymbol tree nm sty with
        | some existing =>
          if content = [] then
            deleteSymbol orig ⟨existing.startPosition, existing.endPosition⟩
          else
            replaceSymbol orig ⟨existing.startPosition, existing.endPosition⟩
              content
        | none => createTopLevel orig content
      if newCode = [] then
        EditOutcome.error ("Error: Failed to generate modified code.".toList)
      else EditOutcome.write newCode) = _
    rw [h]
    simp only [if_neg hne]

/-- Witness for C9 at concrete inputs: a class-scoped edit against a
file with no classes errors out naming the class; a top-level edit whose
symbol is missing writes the appended fallback. -/
theorem claim_C9_missing_target_witness :
    (findSymbol (.mk "program" ⟨0, 0⟩ ⟨1, 0⟩ ("const a = 1;\n".toList) true .nil)
        ("C".toList) "class" = none ∧
      executeTreePath (.mk "program" ⟨0, 0⟩ ⟨1, 0⟩ ("const a = 1;\n".toList) true .nil)
          ("const a = 1;\n".toList) ("b.py".toList) ("m".toList) "method"
          ("def m(): pass".toList) (some ("C".toList)) =
        .error ("Error: Parent class '".toList ++ "C".toList ++
          "' not found in ".toList ++ "b.py".toList ++ ".".toList)) ∧
    (findSymbol (.mk "program" ⟨0, 0⟩ ⟨1, 0⟩ ("const a = 1;\n".toList) true .nil)
        ("f".toList) "function" = none ∧
      createTopLevel ("const a = 1;\n".toList) ("def f(): pass".toList) ≠ [] ∧
      executeTreePath (.mk "program" ⟨0, 0⟩ ⟨1, 0⟩ ("const a = 1;\n".toList) true .nil)
          ("const a = 1;\n".toList) ("b.py".toList) ("f".toList) "function"
          ("def f(): pass".toList) none =
        .write (createTopLevel ("const a = 1;\n".toList) ("def f(): pass".toList))) :=
  ⟨⟨rfl,
    (claim_C9_missing_target (.mk "program" ⟨0, 0⟩ ⟨1, 0⟩ ("const a = 1;\n".toList)
        true .nil) ("const a = 1;\n".toList) ("b.py".toList) ("m".toList) "method"
        ("def m(): pass".toList)).1 ("C".toList) rfl⟩,
   ⟨rfl, by decide,
    (claim_C9_missing_target (.mk "program" ⟨0, 0⟩ ⟨1, 0⟩ ("const a = 1;\n".toList)
        true .nil) ("const a = 1;\n".toList) ("b.py".toList) ("f".toList) "function"
        ("def f(): pass".toList)).2 rfl (by decide)⟩⟩

end RepoMap

